import Mathlib

/-!
# Verification of `Docs/doc_diff.py`

A shallow embedding of the NetKet documentation-consistency checker
`Docs/doc_diff.py` together with proofs about its behaviour.

The script is sequential filesystem glue: it enumerates committed reference
markdown files per topic directory, rebuilds each document into a scratch
tree, byte/stat-compares the two copies, renders an HTML diff report for
mismatches, removes the scratch tree and exits with the aggregate flag.

Modelling choices:
  * The filesystem is a pair of association lists: regular files
    (`path ↦ content, mtime`) and directories (`path ↦ listing`).  Directory
    listings are snapshots: creating an entry inside a directory does not
    update the parent's listing.  The only `os.listdir` calls the script
    performs happen on the topic directories before any file is created, so
    this does not affect the executions the theorems speak about.
  * Computations run in a state monad with Python exception semantics: an
    error aborts the computation but keeps all filesystem effects performed
    so far, exactly like an uncaught Python exception.
  * Every operation appends an `Event` to a trace, so frame conditions
    ("nothing was written", "nothing was printed") are provable.
  * `open(p, 'w')` stamps the file with the current value of a logical
    clock which advances on every write, modelling distinct `st_mtime`
    values for freshly written files.
  * External collaborators (`eval` + `format.format_class`, and
    `difflib.HtmlDiff().make_file`) are opaque to the script: the first is a
    parameter `fmtF : String → String` mapping a fully-qualified class name
    to markdown, the second a fixed function producing an HTML string whose
    contents no claim depends on.  Name-resolution failure of `eval` is not
    modelled; none of the verified properties concern it.
  * String manipulation mirrors the Python expressions
    (`split`, `join`, `replace`, `lower`, `os.path.dirname`) via
    structurally recursive functions over `List Char`, so that all
    definitions evaluate by kernel reduction on concrete inputs.
-/

/-- Python `s.split(sep)` for a single-character separator, over `List Char`.
`"".split(c) = [""]`, adjacent separators yield empty pieces. -/
def splitCharList (sep : Char) : List Char → List (List Char)
  | [] => [[]]
  | c :: cs =>
      let r := splitCharList sep cs
      if c = sep then [] :: r
      else
        match r with
        | [] => [[c]]
        | h :: t => (c :: h) :: t

/-- Python `s.split(sep)` for a single-character separator. -/
def pySplit (s : String) (sep : Char) : List String :=
  (splitCharList sep s.data).map (fun l => ⟨l⟩)

/-- Python `sep.join(parts)`. -/
def pyJoin (sep : String) : List String → String
  | [] => ""
  | [x] => x
  | x :: xs => x ++ sep ++ pyJoin sep xs

/-- Python `s.replace('.', '/')` (single-character pattern and
replacement, hence a character map). -/
def dotsToSlashes (s : String) : String :=
  ⟨s.data.map (fun c => if c = '.' then '/' else c)⟩

/-- Python `s.lower()` (the identifiers involved are ASCII). -/
def pyLower (s : String) : String :=
  ⟨s.data.map Char.toLower⟩

/-- The size in bytes of a file whose content is the UTF-8 encoding of `s`;
this is the `st_size` component of the `os.stat` signature. -/
def pySize (s : String) : Nat :=
  s.data.foldl (fun n c => n + c.utf8Size) 0

/-- Python `os.path.dirname`: everything up to the last `'/'`, with
trailing slashes stripped unless the head consists only of slashes. -/
def dirname (p : String) : String :=
  let head := ((p.data.reverse.dropWhile (fun c => !(c = '/'))).reverse)
  if head.isEmpty || head.all (fun c => c = '/') then ⟨head⟩
  else ⟨(head.reverse.dropWhile (fun c => c = '/')).reverse⟩

/-- `a` is a string prefix of `b` (on the underlying character lists). -/
def strPrefix (a b : String) : Bool :=
  a.data.isPrefixOf b.data

/-- `s` contains no `'/'` character. -/
def noSlash (s : String) : Bool :=
  s.data.all (fun c => !(c = '/'))

/-- The extension-stripping operation the specification's words describe
("filename minus extension", i.e. `os.path.splitext` semantics: drop the
part after the *last* dot).  Used to compare the spec's wording with what
the code actually computes (`split('.')[0]`, the part before the *first*
dot). -/
def stripLastExt (f : String) : String :=
  let parts := pySplit f '.'
  if parts.length ≤ 1 then f else pyJoin "." parts.dropLast

/-- Model of the external `difflib.HtmlDiff().make_file` collaborator: a
standalone HTML document built from the two line sequences.  The script
treats the result as opaque text; no verified property depends on its
contents, only on where it is written. -/
def htmlDiffMakeFile (fromlines tolines : List String) : String :=
  "<html><body><table>" ++ pyJoin "\n" fromlines ++ "</table><table>" ++
    pyJoin "\n" tolines ++ "</table></body></html>"

/-- A regular file: its text content and its `st_mtime` stamp. -/
structure File where
  content : String
  mtime : Nat
deriving Repr, DecidableEq

/-- The filesystem: regular files and directories (with listing snapshots),
as association lists keyed by path. -/
structure FS where
  files : List (String × File)
  dirs : List (String × List String)
deriving Repr, DecidableEq

/-- Look up a regular file. -/
def FS.findFile (fs : FS) (p : String) : Option File :=
  fs.files.lookup p

/-- Look up a directory's listing. -/
def FS.findDir (fs : FS) (p : String) : Option (List String) :=
  fs.dirs.lookup p

/-- One observable step performed by the script. -/
inductive Event where
  | readE (path : String)
  | writeE (path : String)
  | statE (path : String)
  | listdirE (path : String)
  | mkdirE (path : String)
  | rmtreeE (path : String)
  | printE (msg : String)
deriving Repr, DecidableEq

def Event.isWriteE : Event → Bool
  | .writeE _ => true
  | _ => false

def Event.isPrintE : Event → Bool
  | .printE _ => true
  | _ => false

def Event.isReadE : Event → Bool
  | .readE _ => true
  | _ => false

def Event.isStatE : Event → Bool
  | .statE _ => true
  | _ => false

def Event.isMkdirE : Event → Bool
  | .mkdirE _ => true
  | _ => false

/-- The Python exceptions the script can raise. -/
inductive OSErr where
  | fileNotFound (path : String)
  | fileExists (path : String)
  | isADirectory (path : String)
deriving Repr, DecidableEq

/-- The whole process state: filesystem, mtime clock, event trace. -/
structure Sys where
  fs : FS
  clock : Nat
  events : List Event
deriving Repr, DecidableEq

def Sys.addEvent (s : Sys) (e : Event) : Sys :=
  { s with events := s.events ++ [e] }

/-- The effect monad: state threading with Python exception semantics (an
error keeps the state accumulated so far — uncaught exceptions do not roll
back filesystem effects). -/
def OS (α : Type) : Type :=
  Sys → Except OSErr α × Sys

def OS.pure (a : α) : OS α := fun s => (.ok a, s)

def OS.bind (m : OS α) (f : α → OS β) : OS β := fun s =>
  match m s with
  | (.ok a, s₁) => f a s₁
  | (.error e, s₁) => (.error e, s₁)

instance : Monad OS where
  pure := OS.pure
  bind := OS.bind

/-- `os.stat p` (as used by `filecmp.cmp`): fails if `p` is not a file. -/
def osStat (p : String) : OS File := fun s =>
  match s.fs.findFile p with
  | some f => (.ok f, s.addEvent (.statE p))
  | none => (.error (.fileNotFound p), s.addEvent (.statE p))

/-- `open(p).read()`. -/
def osOpenRead (p : String) : OS String := fun s =>
  match s.fs.findFile p with
  | some f => (.ok f.content, s.addEvent (.readE p))
  | none => (.error (.fileNotFound p), s.addEvent (.readE p))

/-- `open(p, 'w').write(c)`: creates or truncates the file, stamping it
with the current clock.  Fails if `p` is a directory or its parent
directory does not exist. -/
def osOpenWrite (p : String) (c : String) : OS Unit := fun s =>
  if (s.fs.findDir p).isSome then
    (.error (.isADirectory p), s.addEvent (.writeE p))
  else
    if dirname p = "" ∨ (s.fs.findDir (dirname p)).isSome then
      (.ok (),
        { fs := { s.fs with
                  files := (p, ⟨c, s.clock⟩) ::
                    s.fs.files.filter (fun e => !(e.fst == p)) },
          clock := s.clock + 1,
          events := s.events ++ [.writeE p] })
    else
      (.error (.fileNotFound p), s.addEvent (.writeE p))

/-- `os.path.isdir p` (a pure query; no trace event). -/
def osIsdir (p : String) : OS Bool := fun s =>
  (.ok (s.fs.findDir p).isSome, s)

/-- `os.listdir p`: raises `FileNotFoundError` for a missing directory. -/
def osListdir (p : String) : OS (List String) := fun s =>
  match s.fs.findDir p with
  | some l => (.ok l, s.addEvent (.listdirE p))
  | none => (.error (.fileNotFound p), s.addEvent (.listdirE p))

/-- `os.mkdir p`: fails if `p` already exists or its parent is missing. -/
def osMkdir (p : String) : OS Unit := fun s =>
  if (s.fs.findDir p).isSome || (s.fs.findFile p).isSome then
    (.error (.fileExists p), s.addEvent (.mkdirE p))
  else
    if dirname p = "" ∨ (s.fs.findDir (dirname p)).isSome then
      (.ok (),
        { s with
          fs := { s.fs with dirs := (p, []) :: s.fs.dirs },
          events := s.events ++ [.mkdirE p] })
    else
      (.error (.fileNotFound p), s.addEvent (.mkdirE p))

/-- `shutil.rmtree p`: removes the directory `p` and everything strictly
below it; raises for a missing directory. -/
def osRmtree (p : String) : OS Unit := fun s =>
  match s.fs.findDir p with
  | some _ =>
      (.ok (),
        { s with
          fs := { files := s.fs.files.filter
                    (fun e => !(strPrefix (p ++ "/") e.fst)),
                  dirs := s.fs.dirs.filter
                    (fun e => !(e.fst == p || strPrefix (p ++ "/") e.fst)) },
          events := s.events ++ [.rmtreeE p] })
  | none => (.error (.fileNotFound p), s.addEvent (.rmtreeE p))

/-- `print(msg)`. -/
def osPrint (msg : String) : OS Unit := fun s =>
  (.ok (), s.addEvent (.printE msg))

/-! ## The script itself

Direct translations of the definitions in `Docs/doc_diff.py`.  The module
globals `build_dir`, `report_dir` and `doc_dirs` are passed as parameters
where the Python reads them; the script's only call of `run` passes the
globals, so the two are interchangeable. -/

/-- Module global `build_dir = 'temp'`. -/
def build_dir : String := "temp"

/-- Module global `report_dir = 'report'`. -/
def report_dir : String := "report"

/-- Module global `doc_dirs = ['Graph']` (overwritten from `sys.argv`
when command-line arguments are present). -/
def doc_dirs : List String := ["Graph"]

/-- `get_generated_docs()`: for each topic directory, list its entries and
build, in lockstep, reference paths `dir/file`, scratch paths
`build_dir/dir/file` and class identifiers
`netket.<dir.lower()>.<file.split('.')[0]>`. -/
def get_generated_docs : List String → String →
    OS (List String × List String × List String)
  | [], _ => OS.pure ([], [], [])
  | d :: rest, bd => do
      let tmp ← osListdir d
      let (refs, mods, cls) ← get_generated_docs rest bd
      OS.pure
        (tmp.map (fun f => d ++ "/" ++ f) ++ refs,
         tmp.map (fun f => bd ++ "/" ++ d ++ "/" ++ f) ++ mods,
         tmp.map (fun f =>
           "netket." ++ pyLower d ++ "." ++ (pySplit f '.').headD "") ++ cls)

/-- `init_dir(new_dir)`: `if not os.path.isdir(new_dir): os.mkdir(new_dir)`. -/
def init_dir (new_dir : String) : OS Unit := do
  let b ← osIsdir new_dir
  if b then OS.pure () else osMkdir new_dir

/-- `build(class_name, output_name, verbose=1)`: print a notice, resolve
the class and format it (the opaque collaborator `fmtF`), write the
markdown to `output_name`. -/
def build (fmtF : String → String) (class_name output_name : String)
    (verbose : Bool) : OS Unit := do
  if verbose then osPrint ("Building documentation for: " ++ class_name)
  else OS.pure ()
  let markdown := fmtF class_name
  osOpenWrite output_name markdown

/-- `filecmp.cmp(f1, f2)` with the default `shallow=True`: equal
`(st_size, st_mtime)` signatures short-circuit to `True`; different sizes
give `False`; otherwise the contents are compared. -/
def filecmp_cmp (f1 f2 : String) : OS Bool := do
  let s1 ← osStat f1
  let s2 ← osStat f2
  if pySize s1.content = pySize s2.content ∧ s1.mtime = s2.mtime then
    OS.pure true
  else if ¬ pySize s1.content = pySize s2.content then
    OS.pure false
  else do
    let c1 ← osOpenRead f1
    let c2 ← osOpenRead f2
    OS.pure (c1 = c2)

/-- `make_report(ref_file, mod_file, class_name, report_dir, verbose)`:
compare; on mismatch create the report directory, diff the two line lists,
and write a standalone HTML report at
`report_dir/<class identifier minus leading segment, dots → slashes>.html`. -/
def make_report (ref_file mod_file class_name report_dir : String)
    (verbose : Bool) : OS Bool := do
  let is_consistent ← filecmp_cmp ref_file mod_file
  if is_consistent then OS.pure is_consistent
  else do
    init_dir report_dir
    let refC ← osOpenRead ref_file
    let modC ← osOpenRead mod_file
    let fromlines := pySplit refC '\n'
    let tolines := pySplit modC '\n'
    let html := htmlDiffMakeFile fromlines tolines
    let out_file := report_dir ++ "/" ++
      pyJoin "/" ((pySplit (dotsToSlashes class_name) '/').drop 1)
    let out_dir := dirname out_file
    osPrint ("Mismatch found in: " ++ class_name)
    init_dir out_dir
    osOpenWrite (out_file ++ ".html") html
    if verbose then
      osPrint ("Report written to: " ++ out_file ++ ".html")
    else OS.pure ()
    OS.pure is_consistent

/-- The `for doc_dir in doc_dirs` loop of `init_docs`. -/
def init_docs_loop (bd : String) : List String → OS Unit
  | [] => OS.pure ()
  | d :: rest => do
      init_dir (bd ++ "/" ++ d)
      init_docs_loop bd rest

/-- `init_docs(build_dir, doc_dirs)`. -/
def init_docs (bd : String) (dd : List String) : OS Unit := do
  init_dir bd
  init_docs_loop bd dd

/-- The `for ... in zip(ref_files, mod_files, classes)` loop of `run`,
threading the aggregate `err` flag (`err = True` on any inconsistency). -/
def doc_loop (fmtF : String → String) (rd : String) :
    List (String × String × String) → Bool → OS Bool
  | [], err => OS.pure err
  | (rf, mf, cn) :: rest, err => do
      build fmtF cn mf true
      let c ← make_report rf mf cn rd true
      doc_loop fmtF rd rest (if c then err else true)

/-- `run(build_dir, doc_dirs, report_dir)`: prepare scratch directories,
locate documents, build and compare each, remove the scratch tree, return
the aggregate mismatch flag. -/
def run (bd : String) (dd : List String) (rd : String)
    (fmtF : String → String) : OS Bool := do
  init_docs bd dd
  let docs ← get_generated_docs dd bd
  let err ← doc_loop fmtF rd (docs.1.zip (docs.2.1.zip docs.2.2)) false
  osRmtree bd
  OS.pure err

/-- The module-level argument handling:
`if len(sys.argv) > 1: doc_dirs = sys.argv[1::]`. -/
def script_doc_dirs (argv : List String) : List String :=
  if argv.length > 1 then argv.drop 1 else doc_dirs

/-- `sys.exit(run(...))`: Python coerces the boolean to the process exit
status (`True ↦ 1`, `False ↦ 0`). -/
def exit_code (err : Bool) : Nat := if err then 1 else 0

/-- The whole process: `sys.exit(run(build_dir, doc_dirs, report_dir))`
with `doc_dirs` taken from `sys.argv`; an uncaught exception escapes as an
error (nonzero exit via the interpreter). -/
def doc_diff_main (fmtF : String → String) (argv : List String) :
    OS Nat := fun s =>
  match run build_dir (script_doc_dirs argv) report_dir fmtF s with
  | (.ok err, s₁) => (.ok (exit_code err), s₁)
  | (.error e, s₁) => (.error e, s₁)

/-! ## Instrumented semantics

`run` only returns the aggregate flag.  To state the exit contract
("the flag is set iff some comparison was inconsistent") we replay the same
loop collecting the individual comparator verdicts, and prove that the two
computations agree step for step. -/

/-- The `run` loop, collecting every comparator verdict in order instead of
folding them into one flag. -/
def doc_loop_verdicts (fmtF : String → String) (rd : String) :
    List (String × String × String) → OS (List Bool)
  | [] => OS.pure []
  | (rf, mf, cn) :: rest => do
      build fmtF cn mf true
      let c ← make_report rf mf cn rd true
      let vs ← doc_loop_verdicts fmtF rd rest
      OS.pure (c :: vs)

/-- `run`, instrumented to return the list of comparator verdicts. -/
def run_verdicts (bd : String) (dd : List String) (rd : String)
    (fmtF : String → String) : OS (List Bool) := do
  init_docs bd dd
  let docs ← get_generated_docs dd bd
  let vs ← doc_loop_verdicts fmtF rd (docs.1.zip (docs.2.1.zip docs.2.2))
  osRmtree bd
  OS.pure vs

/-- The document descriptors the locator derives from the filesystem: one
`(topic directory, entry name)` pair per listed entry, in order. -/
def locatorPairs (fs : FS) (dd : List String) : List (String × String) :=
  (dd.map (fun d => ((fs.findDir d).getD []).map (fun f => (d, f)))).flatten

/-- The report path `make_report` derives from a class identifier: strip
the leading dotted segment, rejoin the rest as path components under the
report root, append `.html`. -/
def reportPath (rd class_name : String) : String :=
  rd ++ "/" ++ pyJoin "/" ((pySplit (dotsToSlashes class_name) '/').drop 1) ++
    ".html"

/-! ## Reasoning infrastructure -/

theorem OS.bind_ok {α β : Type} {m : OS α} {f : α → OS β} {s s₁ : Sys}
    {a : α} (h : m s = (.ok a, s₁)) : (m >>= f) s = f a s₁ := by
  show OS.bind m f s = f a s₁
  unfold OS.bind
  rw [h]

theorem OS.bind_error {α β : Type} {m : OS α} {f : α → OS β} {s s₁ : Sys}
    {e : OSErr} (h : m s = (.error e, s₁)) :
    (m >>= f) s = (.error e, s₁) := by
  show OS.bind m f s = (.error e, s₁)
  unfold OS.bind
  rw [h]

theorem OS.bind_eq_ok {α β : Type} {m : OS α} {f : α → OS β} {s s₂ : Sys}
    {b : β} (h : (m >>= f) s = (.ok b, s₂)) :
    ∃ a s₁, m s = (.ok a, s₁) ∧ f a s₁ = (.ok b, s₂) := by
  have h' : OS.bind m f s = (.ok b, s₂) := h
  unfold OS.bind at h'
  rcases hm : m s with ⟨r, s₁⟩
  rw [hm] at h'
  cases r with
  | ok a => exact ⟨a, s₁, rfl, h'⟩
  | error e => simp at h'

theorem OS.pure_eq {α : Type} {a : α} {s : Sys} :
    (OS.pure a : OS α) s = (.ok a, s) := rfl

/-- `s'` extends `s` by new trace events, each satisfying `P`. -/
def NewEvents (s s' : Sys) (P : Event → Prop) : Prop :=
  ∃ new, s'.events = s.events ++ new ∧ ∀ e ∈ new, P e

theorem NewEvents.refl (s : Sys) (P : Event → Prop) : NewEvents s s P :=
  ⟨[], by simp, by simp⟩

theorem NewEvents.trans {s₁ s₂ s₃ : Sys} {P : Event → Prop}
    (h₁ : NewEvents s₁ s₂ P) (h₂ : NewEvents s₂ s₃ P) :
    NewEvents s₁ s₃ P := by
  obtain ⟨n₁, e₁, p₁⟩ := h₁
  obtain ⟨n₂, e₂, p₂⟩ := h₂
  refine ⟨n₁ ++ n₂, by rw [e₂, e₁, List.append_assoc], ?_⟩
  intro e he
  rcases List.mem_append.mp he with h | h
  · exact p₁ e h
  · exact p₂ e h

theorem NewEvents.mono {s s' : Sys} {P Q : Event → Prop}
    (hPQ : ∀ e, P e → Q e) (h : NewEvents s s' P) : NewEvents s s' Q := by
  obtain ⟨n, he, hp⟩ := h
  exact ⟨n, he, fun e hm => hPQ e (hp e hm)⟩

theorem NewEvents.single {s : Sys} {e : Event} {P : Event → Prop}
    (h : P e) : NewEvents s (s.addEvent e) P := by
  exact ⟨[e], rfl, by simpa using h⟩

/-- Lookup misses in an association list are exactly the absence of the
key. -/
theorem lookup_eq_none_iff {β : Type} (l : List (String × β)) (k : String) :
    l.lookup k = none ↔ ∀ e ∈ l, ¬(e.fst = k) := by
  induction l with
  | nil => simp [List.lookup]
  | cons h t ih =>
    obtain ⟨k', v⟩ := h
    by_cases hk : k = k'
    · subst hk
      simp [List.lookup]
    · rw [List.lookup]
      have : (k == k') = false := by simp [hk]
      rw [this]
      simp only [List.mem_cons]
      constructor
      · intro hn e he
        rcases he with he | he
        · subst he
          simpa using fun h => hk h.symm
        · exact (ih.mp hn) e he
      · intro hall
        exact ih.mpr (fun e he => hall e (Or.inr he))

/-- A filtered association list has no entry for keys the filter removed. -/
theorem lookup_filter_none {β : Type} (l : List (String × β))
    (p : String × β → Bool) (k : String)
    (h : ∀ e ∈ l, e.fst = k → p e = false) :
    (l.filter p).lookup k = none := by
  rw [lookup_eq_none_iff]
  intro e he hek
  have hmem := List.mem_of_mem_filter he
  have hp := List.of_mem_filter he
  rw [h e hmem hek] at hp
  exact absurd hp (by simp)

/-! ### Step lemmas for the primitive operations -/

theorem osStat_ok {p : String} {s : Sys} {f : File}
    (h : s.fs.findFile p = some f) :
    osStat p s = (.ok f, s.addEvent (.statE p)) := by
  unfold osStat
  rw [h]

theorem osOpenRead_ok {p : String} {s : Sys} {f : File}
    (h : s.fs.findFile p = some f) :
    osOpenRead p s = (.ok f.content, s.addEvent (.readE p)) := by
  unfold osOpenRead
  rw [h]

theorem osListdir_ok {p : String} {s : Sys} {l : List String}
    (h : s.fs.findDir p = some l) :
    osListdir p s = (.ok l, s.addEvent (.listdirE p)) := by
  unfold osListdir
  rw [h]

theorem osListdir_err {p : String} {s : Sys}
    (h : s.fs.findDir p = none) :
    osListdir p s = (.error (.fileNotFound p), s.addEvent (.listdirE p)) := by
  unfold osListdir
  rw [h]

theorem osIsdir_eq (p : String) (s : Sys) :
    osIsdir p s = (.ok (s.fs.findDir p).isSome, s) := rfl

theorem osPrint_eq (msg : String) (s : Sys) :
    osPrint msg s = (.ok (), s.addEvent (.printE msg)) := rfl

theorem osMkdir_ok {p : String} {s : Sys}
    (hd : s.fs.findDir p = none) (hf : s.fs.findFile p = none)
    (hpar : dirname p = "" ∨ (s.fs.findDir (dirname p)).isSome) :
    osMkdir p s = (.ok (),
      { s with
        fs := { s.fs with dirs := (p, []) :: s.fs.dirs },
        events := s.events ++ [.mkdirE p] }) := by
  unfold osMkdir
  rw [hd, hf]
  simp only [Option.isSome_none, Bool.or_self, Bool.false_eq_true, if_false]
  rw [if_pos hpar]

theorem osOpenWrite_ok {p : String} {c : String} {s : Sys}
    (hd : s.fs.findDir p = none)
    (hpar : dirname p = "" ∨ (s.fs.findDir (dirname p)).isSome) :
    osOpenWrite p c s = (.ok (),
      { fs := { s.fs with
                files := (p, ⟨c, s.clock⟩) ::
                  s.fs.files.filter (fun e => !(e.fst == p)) },
        clock := s.clock + 1,
        events := s.events ++ [.writeE p] }) := by
  unfold osOpenWrite
  rw [hd]
  simp only [Option.isSome_none, Bool.false_eq_true, if_false]
  rw [if_pos hpar]

theorem osRmtree_ok {p : String} {s : Sys} {l : List String}
    (h : s.fs.findDir p = some l) :
    osRmtree p s = (.ok (),
      { s with
        fs := { files := s.fs.files.filter
                  (fun e => !(strPrefix (p ++ "/") e.fst)),
                dirs := s.fs.dirs.filter
                  (fun e => !(e.fst == p || strPrefix (p ++ "/") e.fst)) },
        events := s.events ++ [.rmtreeE p] }) := by
  unfold osRmtree
  rw [h]

/-- Full characterization of `init_dir` when it succeeds: the target
directory exists afterwards, nothing else changes, and at most one
`mkdir` event is emitted. -/
theorem init_dir_spec (d : String) (s : Sys)
    (hnf : s.fs.findFile d = none)
    (hpar : dirname d = "" ∨ (s.fs.findDir (dirname d)).isSome) :
    ∃ s', init_dir d s = (.ok (), s') ∧
      s'.fs.files = s.fs.files ∧ s'.clock = s.clock ∧
      NewEvents s s' (fun e => e = .mkdirE d) ∧
      (s'.fs.dirs = s.fs.dirs ∨ s'.fs.dirs = (d, []) :: s.fs.dirs) ∧
      (s'.fs.findDir d).isSome = true ∧
      (∀ q, ¬(q = d) → s'.fs.findDir q = s.fs.findDir q) := by
  unfold init_dir
  rw [OS.bind_ok (osIsdir_eq d s)]
  by_cases hd : (s.fs.findDir d).isSome
  · rw [hd]
    exact ⟨s, rfl, rfl, rfl, NewEvents.refl s _, Or.inl rfl, hd,
      fun q _ => rfl⟩
  · simp only [hd, if_false, Bool.false_eq_true]
    have hdn : s.fs.findDir d = none := by
      cases h : s.fs.findDir d with
      | none => rfl
      | some l => rw [h] at hd; simp at hd
    rw [osMkdir_ok hdn hnf hpar]
    refine ⟨_, rfl, rfl, rfl, ⟨[.mkdirE d], rfl, by simp⟩, Or.inr rfl, ?_, ?_⟩
    · simp [FS.findDir, List.lookup]
    · intro q hq
      simp only [FS.findDir, List.lookup]
      have : (q == d) = false := by simp [hq]
      rw [this]

/-! ## Claim C9: topic directory selection from the command line -/

/-- C9: with at least one positional argument after the program name the
topic directories are exactly those arguments in order; with none, the
single built-in default `['Graph']` is used. -/
theorem script_doc_dirs_spec (prog a : String) (args : List String) :
    script_doc_dirs (prog :: a :: args) = a :: args ∧
    script_doc_dirs [prog] = ["Graph"] := by
  constructor
  · unfold script_doc_dirs
    rw [if_pos]
    · rfl
    · simp [List.length_cons]
  · unfold script_doc_dirs
    rw [if_neg]
    · rfl
    · simp

/-! ## Claim C2: the comparator is not an exact content comparison

`make_report` calls `filecmp.cmp(ref_file, mod_file)` with the default
`shallow=True`.  When the two files have identical stat signatures
(regular type, size, mtime) the comparison short-circuits to "consistent"
without ever reading the contents, so two files with different bytes but
equal size and mtime are reported consistent.  This contradicts both the
specification ("an exact content comparison") and the script's own header
("This test will fail if there is a mismatch in any document"). -/

/-- A filesystem holding a reference file and a candidate file with
different contents but identical stat signatures (same byte size `6`,
same mtime `7`). -/
def shallowSys : Sys :=
  { fs := { files := [("Graph/Hypercube.md", ⟨"# Foo\n", 7⟩),
                      ("temp/Graph/Hypercube.md", ⟨"# Bar\n", 7⟩)],
            dirs := [] },
    clock := 0, events := [] }

/-- C2 (code bug): on the concrete pair above the comparator used by
`make_report` answers "consistent" although the contents differ — the
verdict is not an exact content comparison. -/
theorem filecmp_cmp_shallow_inexact :
    (filecmp_cmp "Graph/Hypercube.md" "temp/Graph/Hypercube.md"
        shallowSys).1 = .ok true ∧
    (shallowSys.fs.findFile "Graph/Hypercube.md").map File.content ≠
      (shallowSys.fs.findFile "temp/Graph/Hypercube.md").map File.content := by
  constructor
  · rfl
  · decide

/-! ## Claim C3: the locator's three parallel sequences -/

theorem osListdir_inv {p : String} {s s₁ : Sys} {l : List String}
    (h : osListdir p s = (.ok l, s₁)) :
    s.fs.findDir p = some l ∧ s₁ = s.addEvent (.listdirE p) := by
  unfold osListdir at h
  cases hfd : s.fs.findDir p with
  | some l2 =>
    rw [hfd] at h
    injection h with h1 h2
    injection h1 with h1
    subst h1
    exact ⟨rfl, h2.symm⟩
  | none =>
    rw [hfd] at h
    injection h with h1 h2
    exact absurd h1 (by simp)

/-- C3 (amended): a successful locator pass returns exactly the three
sequences obtained by mapping, over the `(topic dir, entry)` pairs in
discovery order, the reference path `dir/file`, the scratch path
`build_dir/dir/file` and the class identifier
`netket.<dir lower-cased>.<portion of the filename before its first dot>`;
in particular the three sequences have equal length and the i-th elements
describe the same document. -/
theorem get_generated_docs_lockstep (dd : List String) (bd : String)
    (s : Sys) (refs mods cls : List String) (s' : Sys)
    (h : get_generated_docs dd bd s = (.ok (refs, mods, cls), s')) :
    refs = (locatorPairs s.fs dd).map (fun p => p.1 ++ "/" ++ p.2) ∧
    mods = (locatorPairs s.fs dd).map
      (fun p => bd ++ "/" ++ p.1 ++ "/" ++ p.2) ∧
    cls = (locatorPairs s.fs dd).map
      (fun p => "netket." ++ pyLower p.1 ++ "." ++
        (pySplit p.2 '.').headD "") ∧
    refs.length = mods.length ∧ mods.length = cls.length := by
  induction dd generalizing s refs mods cls s' with
  | nil =>
    unfold get_generated_docs at h
    rw [OS.pure_eq] at h
    injection h with h1 h2
    injection h1 with h1
    cases h1
    simp [locatorPairs]
  | cons d rest ih =>
    unfold get_generated_docs at h
    obtain ⟨tmp, s₁, h₁, h₂⟩ := OS.bind_eq_ok h
    obtain ⟨hfd, hs₁⟩ := osListdir_inv h₁
    obtain ⟨⟨r2, m2, c2⟩, s₂, h₃, h₄⟩ := OS.bind_eq_ok h₂
    have h₄' : OS.pure
        (tmp.map (fun f => d ++ "/" ++ f) ++ r2,
         tmp.map (fun f => bd ++ "/" ++ d ++ "/" ++ f) ++ m2,
         tmp.map (fun f => "netket." ++ pyLower d ++ "." ++
           (pySplit f '.').headD "") ++ c2) s₂ =
        (.ok (refs, mods, cls), s') := h₄
    rw [OS.pure_eq] at h₄'
    injection h₄' with h5 h6
    injection h5 with h5
    injection h5 with ha hbc
    injection hbc with hb hc
    subst ha
    subst hb
    subst hc
    have hfs : s₁.fs = s.fs := by rw [hs₁]; rfl
    obtain ⟨ihr, ihm, ihc, _, _⟩ := ih s₁ r2 m2 c2 s₂ h₃
    rw [hfs] at ihr ihm ihc
    have hloc : locatorPairs s.fs (d :: rest) =
        tmp.map (fun f => (d, f)) ++ locatorPairs s.fs rest := by
      simp [locatorPairs, hfd]
    rw [hloc]
    refine ⟨?_, ?_, ?_, ?_, ?_⟩
    · rw [List.map_append, List.map_map, ← ihr]
      rfl
    · rw [List.map_append, List.map_map, ← ihm]
      rfl
    · rw [List.map_append, List.map_map, ← ihc]
      rfl
    · simp [ihr, ihm]
    · simp [ihm, ihc]

/-- A sample state: one topic directory `Graph` holding one committed
reference document. -/
def sampleSys : Sys :=
  { fs := { files := [("Graph/Hypercube.md", ⟨"# Foo\n", 0⟩)],
            dirs := [("Graph", ["Hypercube.md"])] },
    clock := 100, events := [] }

theorem get_generated_docs_lockstep_witness :
    (["Graph/Hypercube.md"] : List String) =
      (locatorPairs sampleSys.fs ["Graph"]).map
        (fun p => p.1 ++ "/" ++ p.2) ∧
    (["temp/Graph/Hypercube.md"] : List String) =
      (locatorPairs sampleSys.fs ["Graph"]).map
        (fun p => "temp" ++ "/" ++ p.1 ++ "/" ++ p.2) ∧
    (["netket.graph.Hypercube"] : List String) =
      (locatorPairs sampleSys.fs ["Graph"]).map
        (fun p => "netket." ++ pyLower p.1 ++ "." ++
          (pySplit p.2 '.').headD "") ∧
    (["Graph/Hypercube.md"] : List String).length =
      (["temp/Graph/Hypercube.md"] : List String).length ∧
    (["temp/Graph/Hypercube.md"] : List String).length =
      (["netket.graph.Hypercube"] : List String).length :=
  get_generated_docs_lockstep ["Graph"] "temp" sampleSys _ _ _ _ rfl

/-- A topic directory holding a file whose name contains two dots. -/
def dottedSys : Sys :=
  { fs := { files := [("Graph/a.b.md", ⟨"x", 0⟩)],
            dirs := [("Graph", ["a.b.md"])] },
    clock := 0, events := [] }

/-- C3 (counterexample to the claim as stated): for the entry `a.b.md` the
locator produces the class identifier `netket.graph.a` — the portion of
the filename before its *first* dot — and not
`netket.<dir lower-cased>.<filename minus extension>`, which would be
`netket.graph.a.b`. -/
theorem get_generated_docs_not_minus_extension :
    (get_generated_docs ["Graph"] "temp" dottedSys).1 =
      .ok (["Graph/a.b.md"], ["temp/Graph/a.b.md"], ["netket.graph.a"]) ∧
    ("netket.graph.a" : String) ≠
      "netket." ++ pyLower "Graph" ++ "." ++ stripLastExt "a.b.md" := by
  constructor
  · rfl
  · decide

/-! ## Claim C1: exit status vs. comparator verdicts -/

theorem all_id_eq_not_any_not (l : List Bool) :
    l.all (fun v => v) = !(l.any (fun v => !v)) := by
  induction l with
  | nil => rfl
  | cons a t ih => cases a <;> simp [List.all_cons, List.any_cons, ih]

/-- The aggregate-flag loop equals the verdict-collecting loop followed by
folding the verdicts with "or of negations". -/
theorem doc_loop_eq (fmtF : String → String) (rd : String)
    (l : List (String × String × String)) :
    ∀ (err : Bool) (s : Sys),
    doc_loop fmtF rd l err s =
      match doc_loop_verdicts fmtF rd l s with
      | (.ok vs, s₁) => (.ok (err || vs.any (fun v => !v)), s₁)
      | (.error e, s₁) => (.error e, s₁) := by
  induction l with
  | nil =>
    intro err s
    unfold doc_loop doc_loop_verdicts
    simp [OS.pure]
  | cons t rest ih =>
    obtain ⟨rf, mf, cn⟩ := t
    intro err s
    unfold doc_loop doc_loop_verdicts
    rcases hb : build fmtF cn mf true s with ⟨rb, sb⟩
    cases rb with
    | error e =>
      rw [OS.bind_error hb, OS.bind_error hb]
    | ok u =>
      rw [OS.bind_ok hb, OS.bind_ok hb]
      rcases hm : make_report rf mf cn rd true sb with ⟨rm, sm⟩
      cases rm with
      | error e =>
        rw [OS.bind_error hm, OS.bind_error hm]
      | ok c =>
        rw [OS.bind_ok hm, OS.bind_ok hm]
        rw [ih]
        rcases hv : doc_loop_verdicts fmtF rd rest sm with ⟨rv, sv⟩
        cases rv with
        | error e =>
          rw [OS.bind_error hv]
        | ok vs =>
          rw [OS.bind_ok hv, OS.pure_eq]
          cases c <;> cases err <;> simp [List.any_cons]

/-- `run` agrees with its instrumented variant: same effects, and the flag
is the disjunction of the negated verdicts. -/
theorem run_eq_verdicts (bd : String) (dd : List String) (rd : String)
    (fmtF : String → String) (s : Sys) :
    run bd dd rd fmtF s =
      match run_verdicts bd dd rd fmtF s with
      | (.ok vs, s₁) => (.ok (vs.any (fun v => !v)), s₁)
      | (.error e, s₁) => (.error e, s₁) := by
  unfold run run_verdicts
  rcases hi : init_docs bd dd s with ⟨ri, si⟩
  cases ri with
  | error e => rw [OS.bind_error hi, OS.bind_error hi]
  | ok u =>
    rw [OS.bind_ok hi, OS.bind_ok hi]
    rcases hg : get_generated_docs dd bd si with ⟨rg, sg⟩
    cases rg with
    | error e => rw [OS.bind_error hg, OS.bind_error hg]
    | ok docs =>
      rw [OS.bind_ok hg, OS.bind_ok hg]
      have hd := doc_loop_eq fmtF rd (docs.1.zip (docs.2.1.zip docs.2.2))
        false sg
      rcases hv : doc_loop_verdicts fmtF rd
          (docs.1.zip (docs.2.1.zip docs.2.2)) sg
        with ⟨rv, sv⟩
      rw [hv] at hd
      cases rv with
      | error e =>
        rw [OS.bind_error hd, OS.bind_error hv]
      | ok vs =>
        simp only [Bool.false_or] at hd
        rw [OS.bind_ok hd, OS.bind_ok hv]
        rcases hr : osRmtree bd sv with ⟨rr, sr⟩
        cases rr with
        | error e => rw [OS.bind_error hr, OS.bind_error hr]
        | ok v =>
          rw [OS.bind_ok hr, OS.bind_ok hr]
          rfl

/-- C1: whenever `run` returns normally, the instrumented run returns the
list of comparator verdicts (one per discovered document, in order); the
process exit status `sys.exit(run(...))` is `0` iff every verdict was
"consistent", and if at least one comparison was inconsistent the
aggregate flag is `True` and the exit status is nonzero. -/
theorem run_exit_contract (bd : String) (dd : List String) (rd : String)
    (fmtF : String → String) (s : Sys) (err : Bool)
    (h : (run bd dd rd fmtF s).1 = .ok err) :
    ∃ vs : List Bool, (run_verdicts bd dd rd fmtF s).1 = .ok vs ∧
      (exit_code err = 0 ↔ vs.all (fun v => v) = true) ∧
      (vs.any (fun v => !v) = true → err = true ∧ exit_code err ≠ 0) := by
  rw [run_eq_verdicts] at h
  rcases hv : run_verdicts bd dd rd fmtF s with ⟨rv, sv⟩
  rw [hv] at h
  cases rv with
  | error e => simp at h
  | ok vs =>
    have herr : vs.any (fun v => !v) = err := by
      injection h
    refine ⟨vs, rfl, ?_, ?_⟩
    · rw [← herr]
      unfold exit_code
      cases hany : vs.any (fun v => !v) with
      | true => simp [hany, all_id_eq_not_any_not]
      | false => simp [hany, all_id_eq_not_any_not]
    · intro hany
      rw [← herr, hany]
      unfold exit_code
      simp

theorem run_exit_contract_witness :
    ∃ vs : List Bool,
      (run_verdicts build_dir ["Graph"] report_dir (fun _ => "# Foo\n")
        sampleSys).1 = .ok vs ∧
      (exit_code false = 0 ↔ vs.all (fun v => v) = true) ∧
      (vs.any (fun v => !v) = true → false = true ∧ exit_code false ≠ 0) :=
  run_exit_contract build_dir ["Graph"] report_dir (fun _ => "# Foo\n")
    sampleSys false rfl

/-! ## Claim C5: consistent comparison has no side effect -/

/-- Events that neither write a file, create a directory nor print. -/
def quietEvent (e : Event) : Prop :=
  e.isWriteE = false ∧ e.isMkdirE = false ∧ e.isPrintE = false

theorem fs_addEvent (s : Sys) (e : Event) : (s.addEvent e).fs = s.fs := rfl

theorem clock_addEvent (s : Sys) (e : Event) :
    (s.addEvent e).clock = s.clock := rfl

/-- `filecmp.cmp` on two files with equal contents answers `True` and only
stats/reads. -/
theorem filecmp_cmp_eq_content {rf mf : String} {s : Sys} {Fr Fm : File}
    (hr : s.fs.findFile rf = some Fr) (hm : s.fs.findFile mf = some Fm)
    (heq : Fr.content = Fm.content) :
    ∃ s', filecmp_cmp rf mf s = (.ok true, s') ∧
      s'.fs = s.fs ∧ s'.clock = s.clock ∧ NewEvents s s' quietEvent := by
  unfold filecmp_cmp
  rw [OS.bind_ok (osStat_ok hr)]
  have hm₁ : (s.addEvent (.statE rf)).fs.findFile mf = some Fm := hm
  rw [OS.bind_ok (osStat_ok hm₁)]
  set s₂ := (s.addEvent (.statE rf)).addEvent (.statE mf) with hs₂
  have hns : NewEvents s s₂ quietEvent := by
    refine ⟨[.statE rf, .statE mf], by simp [hs₂, Sys.addEvent], ?_⟩
    intro e he
    simp only [List.mem_cons, List.not_mem_nil, or_false] at he
    rcases he with rfl | rfl
    · exact ⟨rfl, rfl, rfl⟩
    · exact ⟨rfl, rfl, rfl⟩
  by_cases hsig : pySize Fr.content = pySize Fm.content ∧ Fr.mtime = Fm.mtime
  · rw [if_pos hsig]
    exact ⟨s₂, rfl, rfl, rfl, hns⟩
  · rw [if_neg hsig]
    have hsz : pySize Fr.content = pySize Fm.content := by rw [heq]
    rw [if_neg (by simp [hsz])]
    have hr₂ : s₂.fs.findFile rf = some Fr := hr
    rw [OS.bind_ok (osOpenRead_ok hr₂)]
    have hm₃ : (s₂.addEvent (.readE rf)).fs.findFile mf = some Fm := hm
    rw [OS.bind_ok (osOpenRead_ok hm₃)]
    rw [OS.pure_eq]
    refine ⟨(s₂.addEvent (.readE rf)).addEvent (.readE mf), ?_, rfl, rfl, ?_⟩
    · rw [heq]
      simp
    · refine hns.trans ?_
      refine ⟨[.readE rf, .readE mf], by simp [Sys.addEvent], ?_⟩
      intro e he
      simp only [List.mem_cons, List.not_mem_nil, or_false] at he
      rcases he with rfl | rfl
      · exact ⟨rfl, rfl, rfl⟩
      · exact ⟨rfl, rfl, rfl⟩

/-- C5: on byte-identical reference and candidate files `make_report`
answers "consistent", leaves the filesystem untouched, writes no file,
creates no directory and prints nothing (the only trace events it adds are
stats and reads). -/
theorem make_report_consistent_no_effect (rf mf cn rd : String) (v : Bool)
    (s : Sys) (Fr Fm : File)
    (hr : s.fs.findFile rf = some Fr) (hm : s.fs.findFile mf = some Fm)
    (heq : Fr.content = Fm.content) :
    ∃ s', make_report rf mf cn rd v s = (.ok true, s') ∧
      s'.fs = s.fs ∧ s'.clock = s.clock ∧ NewEvents s s' quietEvent := by
  obtain ⟨s₁, hc, hfs, hck, hev⟩ := filecmp_cmp_eq_content hr hm heq
  unfold make_report
  rw [OS.bind_ok hc]
  exact ⟨s₁, by simp [OS.pure], hfs, hck, hev⟩

theorem make_report_consistent_no_effect_witness :
    ∃ s', make_report "Graph/Hypercube.md" "Graph/Hypercube.md"
        "netket.graph.Hypercube" "report" true sampleSys = (.ok true, s') ∧
      s'.fs = sampleSys.fs ∧ s'.clock = sampleSys.clock ∧
      NewEvents sampleSys s' quietEvent :=
  make_report_consistent_no_effect "Graph/Hypercube.md" "Graph/Hypercube.md"
    "netket.graph.Hypercube" "report" true sampleSys
    ⟨"# Foo\n", 0⟩ ⟨"# Foo\n", 0⟩ rfl rfl rfl

/-! ## Claim C6: the scratch root is removed by every completed run -/

theorem osRmtree_inv {p : String} {s s₄ : Sys}
    (h : osRmtree p s = (.ok (), s₄)) :
    s₄.fs.files = s.fs.files.filter
      (fun e => !(strPrefix (p ++ "/") e.fst)) ∧
    s₄.fs.dirs = s.fs.dirs.filter
      (fun e => !(e.fst == p || strPrefix (p ++ "/") e.fst)) := by
  unfold osRmtree at h
  cases hfd : s.fs.findDir p with
  | some l =>
    rw [hfd] at h
    injection h with h1 h2
    rw [← h2]
    exact ⟨rfl, rfl⟩
  | none =>
    rw [hfd] at h
    injection h with h1 h2
    exact absurd h1 (by simp)

/-- C6: whenever `run` returns (reaches the cleanup step), the scratch
root no longer exists and nothing remains anywhere strictly below it. -/
theorem run_removes_scratch (bd : String) (dd : List String) (rd : String)
    (fmtF : String → String) (s : Sys) (err : Bool) (s' : Sys)
    (h : run bd dd rd fmtF s = (.ok err, s')) :
    s'.fs.findDir bd = none ∧
    ∀ p, strPrefix (bd ++ "/") p = true →
      s'.fs.findDir p = none ∧ s'.fs.findFile p = none := by
  unfold run at h
  obtain ⟨u, s₁, h₁, h₂⟩ := OS.bind_eq_ok h
  obtain ⟨docs, s₂, h₃, h₄⟩ := OS.bind_eq_ok h₂
  obtain ⟨errv, s₃, h₅, h₆⟩ := OS.bind_eq_ok h₄
  obtain ⟨v, s₄, h₇, h₈⟩ := OS.bind_eq_ok h₆
  rw [OS.pure_eq] at h₈
  injection h₈ with h9 h10
  cases v
  obtain ⟨hfiles, hdirs⟩ := osRmtree_inv h₇
  rw [← h10]
  constructor
  · unfold FS.findDir
    rw [hdirs]
    refine lookup_filter_none _ _ _ ?_
    intro e he hek
    simp [hek]
  · intro p hp
    constructor
    · unfold FS.findDir
      rw [hdirs]
      refine lookup_filter_none _ _ _ ?_
      intro e he hek
      rw [hek]
      simp [hp]
    · unfold FS.findFile
      rw [hfiles]
      refine lookup_filter_none _ _ _ ?_
      intro e he hek
      rw [hek]
      simp [hp]

theorem run_removes_scratch_witness :
    ((run build_dir ["Graph"] report_dir (fun _ => "# Foo\n")
        sampleSys).2.fs.findDir build_dir = none ∧
      ∀ p, strPrefix (build_dir ++ "/") p = true →
        (run build_dir ["Graph"] report_dir (fun _ => "# Foo\n")
          sampleSys).2.fs.findDir p = none ∧
        (run build_dir ["Graph"] report_dir (fun _ => "# Foo\n")
          sampleSys).2.fs.findFile p = none) :=
  run_removes_scratch build_dir ["Graph"] report_dir (fun _ => "# Foo\n")
    sampleSys false _ rfl

/-! ## Claim C7: a missing topic directory aborts the whole run -/

theorem dropWhile_append_of_all {α : Type} {p : α → Bool} {l₁ l₂ : List α}
    (h : ∀ x ∈ l₁, p x = true) :
    (l₁ ++ l₂).dropWhile p = l₂.dropWhile p := by
  induction l₁ with
  | nil => rfl
  | cons a t ih =>
    rw [List.cons_append, List.dropWhile_cons, if_pos (h a (by simp))]
    exact ih (fun x hx => h x (by simp [hx]))

theorem dropWhile_eq_self_of_head {α : Type} {p : α → Bool} {a : α}
    {l : List α} (h : p a = false) : (a :: l).dropWhile p = a :: l := by
  rw [List.dropWhile_cons, h]
  simp

theorem data_ne_nil_of_ne_empty {s : String} (h : ¬(s = "")) :
    s.data ≠ [] := by
  intro hd
  apply h
  cases s
  simp_all

theorem dirname_of_noSlash {p : String} (h : noSlash p = true) :
    dirname p = "" := by
  unfold dirname
  have hall : ∀ x ∈ p.data.reverse, (fun c => !(c = '/')) x = true := by
    intro x hx
    exact List.all_eq_true.mp h x (List.mem_reverse.mp hx)
  have hdw : p.data.reverse.dropWhile (fun c => !(c = '/')) = [] :=
    List.dropWhile_eq_nil_iff.mpr hall
  rw [hdw]
  simp

theorem dirname_slash_append {bd x : String} (hbd : noSlash bd = true)
    (hbne : ¬(bd = "")) (hx : noSlash x = true) :
    dirname (bd ++ "/" ++ x) = bd := by
  unfold dirname
  have hslash : ("/" : String).data = ['/'] := by decide
  have hdata : (bd ++ "/" ++ x).data = bd.data ++ '/' :: x.data := by
    rw [String.data_append, String.data_append, hslash]
    simp
  rw [hdata]
  have hxall : ∀ c ∈ x.data.reverse, (fun c => !(c = '/')) c = true := by
    intro c hc
    exact List.all_eq_true.mp hx c (List.mem_reverse.mp hc)
  have hrev : (bd.data ++ '/' :: x.data).reverse =
      x.data.reverse ++ '/' :: bd.data.reverse := by
    simp
  rw [hrev, dropWhile_append_of_all hxall,
    dropWhile_eq_self_of_head (by simp)]
  have hbdall : ∀ c ∈ bd.data, ¬(c = '/') := by
    intro c hc
    have := List.all_eq_true.mp hbd c hc
    simpa using this
  have hhead : ('/' :: bd.data.reverse).reverse = bd.data ++ ['/'] := by
    simp
  rw [hhead]
  have hne : ¬(bd.data ++ ['/']).isEmpty = true := by
    simp [List.isEmpty_iff]
  have hnall : ¬((bd.data ++ ['/']).all fun c => decide (c = '/')) = true := by
    simp only [List.all_append, Bool.and_eq_true, List.all_eq_true]
    intro hcontra
    obtain ⟨h1, h2⟩ := hcontra
    obtain ⟨c, hc⟩ := List.exists_mem_of_ne_nil _ (data_ne_nil_of_ne_empty hbne)
    have := h1 c hc
    exact hbdall c hc (by simpa using this)
  rw [if_neg (by simpa using hnall)]
  have hrev2 : (bd.data ++ ['/']).reverse = '/' :: bd.data.reverse := by
    simp
  rw [hrev2, List.dropWhile_cons, if_pos (by simp)]
  have hstop : bd.data.reverse.dropWhile (fun c => decide (c = '/')) =
      bd.data.reverse := by
    cases hb : bd.data.reverse with
    | nil => rfl
    | cons a t =>
      apply dropWhile_eq_self_of_head
      have ha : a ∈ bd.data := by
        rw [← List.mem_reverse, hb]
        simp
      simpa using hbdall a ha
  rw [hstop]
  simp

theorem ne_slash_append_self (bd x : String) : ¬(bd ++ "/" ++ x = bd) := by
  intro h
  have := congrArg String.length h
  rw [String.length_append, String.length_append] at this
  have h1 : ("/" : String).length = 1 := rfl
  omega

theorem noSlash_ne_slash_append {q bd x : String}
    (hq : noSlash q = true) : ¬(q = bd ++ "/" ++ x) := by
  intro h
  have hslash : ("/" : String).data = ['/'] := by decide
  have hdata : q.data = bd.data ++ '/' :: x.data := by
    rw [h, String.data_append, String.data_append, hslash]
    simp
  have hmem : '/' ∈ q.data := by
    rw [hdata]
    simp
  have := List.all_eq_true.mp hq '/' hmem
  simp at this

theorem findFile_congr {s₁ s₂ : FS} (h : s₁.files = s₂.files) (q : String) :
    s₁.findFile q = s₂.findFile q := by
  unfold FS.findFile
  rw [h]

theorem strPrefix_append_right (a t : String) :
    strPrefix a (a ++ t) = true := by
  unfold strPrefix
  rw [String.data_append]
  exact List.isPrefixOf_iff_prefix.mpr (List.prefix_append _ _)

/-- `init_docs_loop` under sane conditions: creates only scratch
subdirectories `bd/x`, touches no file, emits only `mkdir` events, and
keeps `bd` a directory. -/
theorem init_docs_loop_spec (bd : String) (dd : List String) :
    ∀ s : Sys, (s.fs.findDir bd).isSome = true →
    noSlash bd = true → ¬(bd = "") →
    (∀ x ∈ dd, noSlash x = true) →
    (∀ x ∈ dd, s.fs.findFile (bd ++ "/" ++ x) = none) →
    ∃ s₁, init_docs_loop bd dd s = (.ok (), s₁) ∧
      s₁.fs.files = s.fs.files ∧ s₁.clock = s.clock ∧
      NewEvents s s₁ (fun e => ∃ q, e = .mkdirE q) ∧
      (s₁.fs.findDir bd).isSome = true ∧
      (∀ q, (∀ x ∈ dd, ¬(q = bd ++ "/" ++ x)) →
        s₁.fs.findDir q = s.fs.findDir q) ∧
      (∃ added, s₁.fs.dirs = added ++ s.fs.dirs ∧
        ∀ e ∈ added, e.fst = bd ∨ strPrefix (bd ++ "/") e.fst = true) := by
  induction dd with
  | nil =>
    intro s hbd _ _ _ _
    exact ⟨s, rfl, rfl, rfl, NewEvents.refl s _, hbd, fun q _ => rfl,
      [], (List.nil_append _).symm, by simp⟩
  | cons x rest ih =>
    intro s hbd hbdn hbne hns hnf
    have hx_ns : noSlash x = true := hns x (by simp)
    obtain ⟨s', hs', hfiles, hclock, hev, hdisj, _, hpres⟩ :=
      init_dir_spec (bd ++ "/" ++ x) s (hnf x (by simp))
        (Or.inr (by rw [dirname_slash_append hbdn hbne hx_ns]; exact hbd))
    have hbd' : (s'.fs.findDir bd).isSome = true := by
      rw [hpres bd (fun h => ne_slash_append_self bd x h.symm)]
      exact hbd
    have hnf' : ∀ y ∈ rest, s'.fs.findFile (bd ++ "/" ++ y) = none := by
      intro y hy
      rw [findFile_congr hfiles]
      exact hnf y (by simp [hy])
    obtain ⟨s₁, hs₁, hfiles₁, hclock₁, hev₁, hbd₁, hpres₁, added₁, hadd₁,
      haddP₁⟩ :=
      ih s' hbd' hbdn hbne (fun y hy => hns y (by simp [hy])) hnf'
    refine ⟨s₁, ?_, ?_, ?_, ?_, hbd₁, ?_, ?_⟩
    · unfold init_docs_loop
      rw [OS.bind_ok hs']
      exact hs₁
    · rw [hfiles₁, hfiles]
    · rw [hclock₁, hclock]
    · exact (hev.mono (fun e he => ⟨bd ++ "/" ++ x, he⟩)).trans hev₁
    · intro q hq
      rw [hpres₁ q (fun y hy => hq y (by simp [hy])), hpres q (hq x (by simp))]
    · rcases hdisj with hsame | hcons
      · exact ⟨added₁, by rw [hadd₁, hsame], haddP₁⟩
      · refine ⟨added₁ ++ [(bd ++ "/" ++ x, [])], ?_, ?_⟩
        · rw [hadd₁, hcons, List.append_assoc]
          rfl
        · intro e he
          rcases List.mem_append.mp he with h | h
          · exact haddP₁ e h
          · simp only [List.mem_singleton] at h
            subst h
            exact Or.inr (strPrefix_append_right (bd ++ "/") x)

/-- `init_docs` under sane conditions: the scratch root exists afterwards,
no file changed, only `mkdir` events, and any directory other than the
scratch root and its per-topic children is untouched. -/
theorem init_docs_spec (bd : String) (dd : List String) (s : Sys)
    (hbdn : noSlash bd = true) (hbne : ¬(bd = ""))
    (hns : ∀ x ∈ dd, noSlash x = true)
    (hbf : s.fs.findFile bd = none)
    (hsubf : ∀ x ∈ dd, s.fs.findFile (bd ++ "/" ++ x) = none) :
    ∃ s₁, init_docs bd dd s = (.ok (), s₁) ∧
      s₁.fs.files = s.fs.files ∧ s₁.clock = s.clock ∧
      NewEvents s s₁ (fun e => ∃ q, e = .mkdirE q) ∧
      (s₁.fs.findDir bd).isSome = true ∧
      (∀ q, ¬(q = bd) → (∀ x ∈ dd, ¬(q = bd ++ "/" ++ x)) →
        s₁.fs.findDir q = s.fs.findDir q) ∧
      (∃ added, s₁.fs.dirs = added ++ s.fs.dirs ∧
        ∀ e ∈ added, e.fst = bd ∨ strPrefix (bd ++ "/") e.fst = true) := by
  obtain ⟨s', hs', hfiles, hclock, hev, hdisj, hdsome, hpres⟩ :=
    init_dir_spec bd s hbf (Or.inl (dirname_of_noSlash hbdn))
  have hsubf' : ∀ x ∈ dd, s'.fs.findFile (bd ++ "/" ++ x) = none := by
    intro x hx
    rw [findFile_congr hfiles]
    exact hsubf x hx
  obtain ⟨s₁, hs₁, hfiles₁, hclock₁, hev₁, hbd₁, hpres₁, added₁, hadd₁,
    haddP₁⟩ :=
    init_docs_loop_spec bd dd s' hdsome hbdn hbne hns hsubf'
  refine ⟨s₁, ?_, by rw [hfiles₁, hfiles], by rw [hclock₁, hclock],
    (hev.mono (fun e he => ⟨bd, he⟩)).trans hev₁, hbd₁, ?_, ?_⟩
  · unfold init_docs
    rw [OS.bind_ok hs']
    exact hs₁
  · intro q hqbd hqsub
    rw [hpres₁ q hqsub, hpres q hqbd]
  · rcases hdisj with hsame | hcons
    · exact ⟨added₁, by rw [hadd₁, hsame], haddP₁⟩
    · refine ⟨added₁ ++ [(bd, [])], ?_, ?_⟩
      · rw [hadd₁, hcons, List.append_assoc]
        rfl
      · intro e he
        rcases List.mem_append.mp he with h | h
        · exact haddP₁ e h
        · simp only [List.mem_singleton] at h
          subst h
          exact Or.inl rfl

/-- If some configured topic directory is missing, the locator raises
`FileNotFoundError` for the first missing one, having only listed
directories beforehand. -/
theorem get_generated_docs_missing (dd : List String) :
    ∀ (bd : String) (s : Sys),
    (∃ d, d ∈ dd ∧ s.fs.findDir d = none) →
    ∃ d' s', get_generated_docs dd bd s = (.error (.fileNotFound d'), s') ∧
      d' ∈ dd ∧ s.fs.findDir d' = none ∧
      s'.fs = s.fs ∧ s'.clock = s.clock ∧
      NewEvents s s' (fun e => ∃ q, e = .listdirE q) := by
  induction dd with
  | nil =>
    intro bd s h
    obtain ⟨d, hd, _⟩ := h
    exact absurd hd (List.not_mem_nil d)
  | cons d rest ih =>
    intro bd s h
    obtain ⟨d₀, hd₀, hmiss⟩ := h
    cases hfd : s.fs.findDir d with
    | none =>
      refine ⟨d, s.addEvent (.listdirE d), ?_, by simp, hfd, rfl, rfl,
        NewEvents.single ⟨d, rfl⟩⟩
      unfold get_generated_docs
      exact OS.bind_error (osListdir_err hfd)
    | some l =>
      have hd₀r : d₀ ∈ rest := by
        rcases List.mem_cons.mp hd₀ with rfl | hr
        · rw [hfd] at hmiss
          simp at hmiss
        · exact hr
      obtain ⟨d', s', hs', hd', hmiss', hfs', hclock', hev'⟩ :=
        ih bd (s.addEvent (.listdirE d)) ⟨d₀, hd₀r, hmiss⟩
      refine ⟨d', s', ?_, by simp [hd'], hmiss', hfs', hclock', ?_⟩
      · unfold get_generated_docs
        rw [OS.bind_ok (osListdir_ok hfd)]
        exact OS.bind_error hs'
      · exact (NewEvents.single ⟨d, rfl⟩).trans hev'

/-- C7: if a configured topic directory does not exist, the run aborts
with the locator's uncaught `FileNotFoundError` before any document is
built or compared: no file is written or read, nothing is printed — the
only events are the scratch `mkdir`s and directory listings. -/
theorem run_missing_dir_aborts (bd rd : String) (dd : List String)
    (fmtF : String → String) (s : Sys) (d : String)
    (hd : d ∈ dd) (hmiss : s.fs.findDir d = none)
    (hbdn : noSlash bd = true) (hbne : ¬(bd = ""))
    (hddn : ∀ x ∈ dd, noSlash x = true)
    (hbf : s.fs.findFile bd = none)
    (hsubf : ∀ x ∈ dd, s.fs.findFile (bd ++ "/" ++ x) = none)
    (hdbd : ¬(d = bd)) :
    ∃ d' s', run bd dd rd fmtF s = (.error (.fileNotFound d'), s') ∧
      d' ∈ dd ∧ s.fs.findDir d' = none ∧ s'.fs.files = s.fs.files ∧
      NewEvents s s'
        (fun e => (∃ q, e = .mkdirE q) ∨ (∃ q, e = .listdirE q)) := by
  obtain ⟨s₁, hs₁, hfiles₁, hclock₁, hev₁, hbd₁, hpres₁, _⟩ :=
    init_docs_spec bd dd s hbdn hbne hddn hbf hsubf
  have hmiss₁ : s₁.fs.findDir d = none := by
    rw [hpres₁ d hdbd (fun x hx => noSlash_ne_slash_append (hddn d hd))]
    exact hmiss
  obtain ⟨d', s', hs', hd', hmiss', hfs', hclock', hev'⟩ :=
    get_generated_docs_missing dd bd s₁ ⟨d, hd, hmiss₁⟩
  have hd'bd : ¬(d' = bd) := by
    intro h
    rw [h] at hmiss'
    rw [hmiss'] at hbd₁
    simp at hbd₁
  have hmiss's : s.fs.findDir d' = none := by
    rw [← hpres₁ d' hd'bd
      (fun x hx => noSlash_ne_slash_append (hddn d' hd'))]
    exact hmiss'
  refine ⟨d', s', ?_, hd', hmiss's, ?_, ?_⟩
  · unfold run
    rw [OS.bind_ok hs₁]
    exact OS.bind_error hs'
  · rw [congrArg FS.files hfs', hfiles₁]
  · exact (hev₁.mono (fun e he => Or.inl he)).trans
      (hev'.mono (fun e he => Or.inr he))

theorem run_missing_dir_aborts_witness :
    ∃ d' s', run build_dir ["Graph", "Missing"] report_dir (fun _ => "x")
        sampleSys = (.error (.fileNotFound d'), s') ∧
      d' ∈ ["Graph", "Missing"] ∧ sampleSys.fs.findDir d' = none ∧
      s'.fs.files = sampleSys.fs.files ∧
      NewEvents sampleSys s'
        (fun e => (∃ q, e = .mkdirE q) ∨ (∃ q, e = .listdirE q)) :=
  run_missing_dir_aborts build_dir report_dir ["Graph", "Missing"]
    (fun _ => "x") sampleSys "Missing" (by decide) rfl (by decide)
    (by decide) (by decide) rfl (by decide) (by decide)

/-! ## Claim C8: a run over existing-but-empty topic directories -/

/-- The locator on topic directories that all exist and are empty returns
three empty sequences and does nothing but list. -/
theorem get_generated_docs_empty (dd : List String) :
    ∀ (bd : String) (s : Sys),
    (∀ d ∈ dd, s.fs.findDir d = some []) →
    ∃ s', get_generated_docs dd bd s = (.ok ([], [], []), s') ∧
      s'.fs = s.fs ∧ s'.clock = s.clock ∧
      NewEvents s s' (fun e => ∃ q, e = .listdirE q) := by
  induction dd with
  | nil =>
    intro bd s _
    exact ⟨s, rfl, rfl, rfl, NewEvents.refl s _⟩
  | cons d rest ih =>
    intro bd s h
    have hfd : s.fs.findDir d = some [] := h d (by simp)
    obtain ⟨s', hs', hfs', hclock', hev'⟩ :=
      ih bd (s.addEvent (.listdirE d)) (fun x hx => h x (by simp [hx]))
    refine ⟨s', ?_, hfs', hclock', (NewEvents.single ⟨d, rfl⟩).trans hev'⟩
    unfold get_generated_docs
    rw [OS.bind_ok (osListdir_ok hfd), OS.bind_ok hs']
    rfl

/-- C8: running the orchestrator when every configured topic directory
exists but is empty returns the no-mismatch flag (exit status `0`),
restores the filesystem exactly (in particular no report directory is
created and the scratch root is gone). -/
theorem run_empty_dirs (bd rd : String) (dd : List String)
    (fmtF : String → String) (s : Sys)
    (hdd : ∀ d ∈ dd, s.fs.findDir d = some [] ∧ noSlash d = true ∧
      ¬(d = bd))
    (hbdn : noSlash bd = true) (hbne : ¬(bd = ""))
    (hbdnone : s.fs.findDir bd = none)
    (hbf : s.fs.findFile bd = none)
    (hsubf : ∀ x ∈ dd, s.fs.findFile (bd ++ "/" ++ x) = none)
    (hnod : ∀ e ∈ s.fs.dirs, strPrefix (bd ++ "/") e.fst = false)
    (hnof : ∀ e ∈ s.fs.files, strPrefix (bd ++ "/") e.fst = false) :
    ∃ s', run bd dd rd fmtF s = (.ok false, s') ∧ exit_code false = 0 ∧
      s'.fs.files = s.fs.files ∧ s'.fs.dirs = s.fs.dirs ∧
      s'.fs.findDir bd = none := by
  obtain ⟨s₁, hs₁, hfiles₁, hclock₁, hev₁, hbd₁, hpres₁, added, hadd,
    haddP⟩ :=
    init_docs_spec bd dd s hbdn hbne (fun d hd => (hdd d hd).2.1) hbf hsubf
  have hdd₁ : ∀ d ∈ dd, s₁.fs.findDir d = some [] := by
    intro d hd
    rw [hpres₁ d (hdd d hd).2.2
      (fun x hx => noSlash_ne_slash_append (hdd d hd).2.1)]
    exact (hdd d hd).1
  obtain ⟨s₂, hs₂, hfs₂, hclock₂, hev₂⟩ :=
    get_generated_docs_empty dd bd s₁ hdd₁
  have hbd₂ : (s₂.fs.findDir bd).isSome = true := by
    rw [congrArg (fun fs => FS.findDir fs bd) hfs₂]
    exact hbd₁
  obtain ⟨l, hl⟩ := Option.isSome_iff_exists.mp hbd₂
  have hrm := osRmtree_ok (s := s₂) hl
  refine ⟨{ fs := { files := s₂.fs.files.filter
                      (fun e => !(strPrefix (bd ++ "/") e.fst)),
                    dirs := s₂.fs.dirs.filter
                      (fun e => !(e.fst == bd ||
                        strPrefix (bd ++ "/") e.fst)) },
            clock := s₂.clock,
            events := s₂.events ++ [.rmtreeE bd] }, ?_, rfl, ?_, ?_, ?_⟩
  · unfold run
    rw [OS.bind_ok hs₁, OS.bind_ok hs₂]
    show (doc_loop fmtF rd [] false >>= fun err =>
      osRmtree bd >>= fun _ => OS.pure err) s₂ = _
    rw [OS.bind_ok (show doc_loop fmtF rd [] false s₂ = (.ok false, s₂)
      from rfl)]
    rw [OS.bind_ok hrm]
    rfl
  · show (s₂.fs.files.filter fun e => !(strPrefix (bd ++ "/") e.fst)) =
      s.fs.files
    have hsf : s₂.fs.files = s.fs.files := by
      rw [congrArg FS.files hfs₂, hfiles₁]
    rw [hsf]
    exact List.filter_eq_self.mpr (fun e he => by simp [hnof e he])
  · show (s₂.fs.dirs.filter
      (fun e => !(e.fst == bd || strPrefix (bd ++ "/") e.fst))) = s.fs.dirs
    have hsd : s₂.fs.dirs = added ++ s.fs.dirs := by
      rw [congrArg FS.dirs hfs₂, hadd]
    rw [hsd, List.filter_append]
    have h1 : (added.filter
        (fun e => !(e.fst == bd || strPrefix (bd ++ "/") e.fst))) = [] := by
      rw [List.filter_eq_nil_iff]
      intro e he
      rcases haddP e he with hk | hk <;> simp [hk]
    have h2 : (s.fs.dirs.filter
        (fun e => !(e.fst == bd || strPrefix (bd ++ "/") e.fst))) =
        s.fs.dirs := by
      refine List.filter_eq_self.mpr (fun e he => ?_)
      have hne : ¬(e.fst = bd) :=
        (lookup_eq_none_iff s.fs.dirs bd).mp hbdnone e he
      simp [hne, hnod e he]
    rw [h1, h2, List.nil_append]
  · show ((s₂.fs.dirs.filter
      (fun e => !(e.fst == bd || strPrefix (bd ++ "/") e.fst))).lookup bd) =
      none
    refine lookup_filter_none _ _ _ ?_
    intro e he hek
    simp [hek]

/-- A state with a single empty topic directory. -/
def emptyDirSys : Sys :=
  { fs := { files := [], dirs := [("Graph", [])] }, clock := 0,
    events := [] }

theorem run_empty_dirs_witness :
    ∃ s', run build_dir ["Graph"] report_dir (fun _ => "x") emptyDirSys =
        (.ok false, s') ∧ exit_code false = 0 ∧
      s'.fs.files = emptyDirSys.fs.files ∧
      s'.fs.dirs = emptyDirSys.fs.dirs ∧
      s'.fs.findDir build_dir = none :=
  run_empty_dirs build_dir report_dir ["Graph"] (fun _ => "x") emptyDirSys
    (by decide) (by decide) (by decide) rfl rfl (by decide) (by decide)
    (by decide)

/-! ## Claim C4: a mismatch writes exactly one report at the derived path -/

/-- `s` contains no `'.'` character. -/
def noDot (s : String) : Bool :=
  s.data.all (fun c => !(c = '.'))

theorem str_ext {s t : String} (h : s.data = t.data) : s = t := by
  cases s
  cases t
  exact congrArg String.mk h

theorem splitCharList_cons (sep c : Char) (cs : List Char) :
    splitCharList sep (c :: cs) =
      (if c = sep then [] :: splitCharList sep cs
       else
         match splitCharList sep cs with
         | [] => [[c]]
         | h :: t => (c :: h) :: t) := rfl

theorem splitCharList_no_sep {sep : Char} {l : List Char}
    (h : ∀ c ∈ l, ¬(c = sep)) : splitCharList sep l = [l] := by
  induction l with
  | nil => rfl
  | cons c cs ih =>
    rw [splitCharList_cons, if_neg (h c (by simp)),
      ih (fun x hx => h x (by simp [hx]))]

theorem splitCharList_append_sep {sep : Char} {xs : List Char}
    (ys : List Char) (h : ∀ c ∈ xs, ¬(c = sep)) :
    splitCharList sep (xs ++ sep :: ys) = xs :: splitCharList sep ys := by
  induction xs with
  | nil =>
    rw [List.nil_append, splitCharList_cons, if_pos rfl]
  | cons c cs ih =>
    rw [List.cons_append, splitCharList_cons, if_neg (h c (by simp)),
      ih (fun x hx => h x (by simp [hx]))]

theorem map_dots_eq_self {l : List Char} (h : ∀ c ∈ l, ¬(c = '.')) :
    l.map (fun c => if c = '.' then '/' else c) = l := by
  induction l with
  | nil => rfl
  | cons c cs ih =>
    rw [List.map_cons, if_neg (h c (by simp)),
      ih (fun x hx => h x (by simp [hx]))]

theorem noSlash_forall {a : String} (h : noSlash a = true) :
    ∀ c ∈ a.data, ¬(c = '/') := by
  intro c hc
  have := List.all_eq_true.mp h c hc
  simpa using this

theorem noDot_forall {a : String} (h : noDot a = true) :
    ∀ c ∈ a.data, ¬(c = '.') := by
  intro c hc
  have := List.all_eq_true.mp h c hc
  simpa using this

/-- Splitting the slash-form of a locator class identifier
`netket.<a>.<b>` yields exactly the three segments. -/
theorem classSegments (a b : String)
    (ha : noSlash a = true) (had : noDot a = true)
    (hb : noSlash b = true) (hbd : noDot b = true) :
    pySplit (dotsToSlashes ("netket." ++ a ++ "." ++ b)) '/' =
      ["netket", a, b] := by
  have hdata : (dotsToSlashes ("netket." ++ a ++ "." ++ b)).data =
      ['n', 'e', 't', 'k', 'e', 't'] ++ '/' :: (a.data ++ '/' :: b.data) := by
    show (("netket." ++ a ++ "." ++ b).data.map
      (fun c => if c = '.' then '/' else c)) = _
    rw [String.data_append, String.data_append, String.data_append]
    have h1 : ("netket." : String).data = ['n','e','t','k','e','t','.'] := by
      decide
    have h2 : ("." : String).data = ['.'] := by decide
    rw [h1, h2, List.map_append, List.map_append, List.map_append,
      map_dots_eq_self (noDot_forall had), map_dots_eq_self (noDot_forall hbd)]
    simp
  unfold pySplit
  rw [hdata,
    splitCharList_append_sep _ (by decide),
    splitCharList_append_sep _ (noSlash_forall ha),
    splitCharList_no_sep (noSlash_forall hb)]
  rfl

/-- `os.path.dirname` of a path of shape `rd/a/<slash-free tail>` is
`rd/a`. -/
theorem dirname_shape (rd a : String) (tail : List Char)
    (ha : noSlash a = true) (hane : ¬(a = ""))
    (htail : ∀ c ∈ tail, ¬(c = '/'))
    {p : String} (hp : p.data = rd.data ++ '/' :: a.data ++ '/' :: tail) :
    dirname p = rd ++ "/" ++ a := by
  unfold dirname
  rw [hp]
  have hrev : (rd.data ++ '/' :: a.data ++ '/' :: tail).reverse =
      tail.reverse ++ '/' :: (a.data.reverse ++ '/' :: rd.data.reverse) := by
    simp
  rw [hrev]
  have htailrev : ∀ c ∈ tail.reverse, (fun c => !(c = '/')) c = true := by
    intro c hc
    simp [htail c (List.mem_reverse.mp hc)]
  rw [dropWhile_append_of_all htailrev,
    dropWhile_eq_self_of_head (by simp)]
  have hhead : ('/' :: (a.data.reverse ++ '/' :: rd.data.reverse)).reverse =
      (rd.data ++ '/' :: a.data) ++ ['/'] := by
    simp
  rw [hhead]
  have hnonempty : ¬((rd.data ++ '/' :: a.data) ++ ['/']).isEmpty = true := by
    simp
  obtain ⟨c₀, t₀, ha₀⟩ : ∃ c₀ t₀, a.data = c₀ :: t₀ := by
    cases hd : a.data with
    | nil => exact absurd hd (data_ne_nil_of_ne_empty hane)
    | cons c t => exact ⟨c, t, rfl⟩
  have hnall : ¬(((rd.data ++ '/' :: a.data) ++ ['/']).all
      fun c => decide (c = '/')) = true := by
    simp only [List.all_append, Bool.and_eq_true, List.all_eq_true]
    intro hcontra
    have hc₀ := hcontra.1.2 c₀ (by simp [ha₀])
    have : ¬(c₀ = '/') := noSlash_forall ha c₀ (by simp [ha₀])
    simp_all
  rw [if_neg (by simpa using And.intro hnonempty hnall)]
  have hrev2 : ((rd.data ++ '/' :: a.data) ++ ['/']).reverse =
      '/' :: (a.data.reverse ++ '/' :: rd.data.reverse) := by
    simp
  rw [hrev2, List.dropWhile_cons, if_pos (by simp)]
  have hstop : (a.data.reverse ++ '/' :: rd.data.reverse).dropWhile
      (fun c => decide (c = '/')) = a.data.reverse ++ '/' :: rd.data.reverse := by
    rw [ha₀]
    cases hrd : t₀.reverse with
    | nil =>
      simp only [List.reverse_cons, hrd, List.nil_append]
      apply dropWhile_eq_self_of_head
      have : ¬(c₀ = '/') := noSlash_forall ha c₀ (by simp [ha₀])
      simpa using this
    | cons d ds =>
      simp only [List.reverse_cons, hrd]
      rw [List.cons_append, List.cons_append]
      apply dropWhile_eq_self_of_head
      have hd_mem : d ∈ a.data := by
        rw [ha₀]
        have : d ∈ t₀ := by
          rw [← List.mem_reverse, hrd]
          simp
        simp [this]
      have : ¬(d = '/') := noSlash_forall ha d hd_mem
      simpa using this
  rw [hstop]
  apply str_ext
  have : (rd ++ "/" ++ a).data = rd.data ++ '/' :: a.data := by
    rw [String.data_append, String.data_append]
    have hslash : ("/" : String).data = ['/'] := by decide
    rw [hslash]
    simp
  rw [this]
  simp

/-- `filecmp.cmp` on files with different stat signatures and different
contents answers `False`, with only stat/read events. -/
theorem filecmp_cmp_diff {rf mf : String} {s : Sys} {Fr Fm : File}
    (hr : s.fs.findFile rf = some Fr) (hm : s.fs.findFile mf = some Fm)
    (hsig : ¬(pySize Fr.content = pySize Fm.content ∧ Fr.mtime = Fm.mtime))
    (hne : ¬(Fr.content = Fm.content)) :
    ∃ s', filecmp_cmp rf mf s = (.ok false, s') ∧
      s'.fs = s.fs ∧ s'.clock = s.clock ∧ NewEvents s s' quietEvent := by
  unfold filecmp_cmp
  rw [OS.bind_ok (osStat_ok hr)]
  have hm₁ : (s.addEvent (.statE rf)).fs.findFile mf = some Fm := hm
  rw [OS.bind_ok (osStat_ok hm₁)]
  set s₂ := (s.addEvent (.statE rf)).addEvent (.statE mf) with hs₂
  have hns : NewEvents s s₂ quietEvent := by
    refine ⟨[.statE rf, .statE mf], by simp [hs₂, Sys.addEvent], ?_⟩
    intro e he
    simp only [List.mem_cons, List.not_mem_nil, or_false] at he
    rcases he with rfl | rfl
    · exact ⟨rfl, rfl, rfl⟩
    · exact ⟨rfl, rfl, rfl⟩
  rw [if_neg hsig]
  by_cases hsz : pySize Fr.content = pySize Fm.content
  · rw [if_neg (not_not_intro hsz)]
    have hr₂ : s₂.fs.findFile rf = some Fr := hr
    rw [OS.bind_ok (osOpenRead_ok hr₂)]
    have hm₃ : (s₂.addEvent (.readE rf)).fs.findFile mf = some Fm := hm
    rw [OS.bind_ok (osOpenRead_ok hm₃)]
    rw [OS.pure_eq]
    refine ⟨(s₂.addEvent (.readE rf)).addEvent (.readE mf), ?_, rfl, rfl, ?_⟩
    · simp [hne]
    · refine hns.trans ⟨[.readE rf, .readE mf], by simp [Sys.addEvent], ?_⟩
      intro e he
      simp only [List.mem_cons, List.not_mem_nil, or_false] at he
      rcases he with rfl | rfl
      · exact ⟨rfl, rfl, rfl⟩
      · exact ⟨rfl, rfl, rfl⟩
  · rw [if_pos hsz, OS.pure_eq]
    exact ⟨s₂, rfl, rfl, rfl, hns⟩

theorem writes_filter_of_NewEvents {s s' : Sys} {P : Event → Prop}
    (h : NewEvents s s' P) (hP : ∀ e, P e → e.isWriteE = false) :
    s'.events.filter Event.isWriteE = s.events.filter Event.isWriteE := by
  obtain ⟨new, he, hp⟩ := h
  rw [he, List.filter_append]
  have hnil : new.filter Event.isWriteE = [] := by
    rw [List.filter_eq_nil_iff]
    intro e hm
    rw [hP e (hp e hm)]
    simp
  rw [hnil, List.append_nil]

theorem writes_filter_addEvent {s : Sys} {e : Event}
    (h : e.isWriteE = false) :
    (s.addEvent e).events.filter Event.isWriteE =
      s.events.filter Event.isWriteE := by
  simp [Sys.addEvent, List.filter_append, h]

theorem writes_filter_addEvent2 (s : Sys) (e : Event)
    (h : e.isWriteE = false) :
    (s.addEvent e).events.filter Event.isWriteE =
      s.events.filter Event.isWriteE := by
  simp [Sys.addEvent, List.filter_append, h]

/-- C4 (amended): for every pair of files differing in at least one line
whose stat signatures also differ, `make_report` on a locator-shaped class
identifier `netket.<a>.<b>` returns "inconsistent" and performs exactly
one file write, at the derived path `report_dir/<a>/<b>.html` (the class
identifier minus its leading segment, re-joined as path components, plus
`.html`), and that report file exists afterwards. -/
theorem make_report_mismatch_report (rf mf a b rd : String) (v : Bool)
    (s : Sys) (Fr Fm : File)
    (hr : s.fs.findFile rf = some Fr) (hm : s.fs.findFile mf = some Fm)
    (hsig : ¬(pySize Fr.content = pySize Fm.content ∧ Fr.mtime = Fm.mtime))
    (hlines : ¬(pySplit Fr.content '\n' = pySplit Fm.content '\n'))
    (hans : noSlash a = true) (hand : noDot a = true) (hane : ¬(a = ""))
    (hbns : noSlash b = true) (hbnd : noDot b = true)
    (hrdn : noSlash rd = true) (hrdne : ¬(rd = ""))
    (hrdf : s.fs.findFile rd = none)
    (hodf : s.fs.findFile (rd ++ "/" ++ a) = none)
    (htd : s.fs.findDir (rd ++ "/" ++ (a ++ "/" ++ b) ++ ".html") = none) :
    ∃ s', make_report rf mf ("netket." ++ a ++ "." ++ b) rd v s =
        (.ok false, s') ∧
      reportPath rd ("netket." ++ a ++ "." ++ b) =
        rd ++ "/" ++ (a ++ "/" ++ b) ++ ".html" ∧
      s'.events.filter Event.isWriteE =
        s.events.filter Event.isWriteE ++
          [.writeE (rd ++ "/" ++ (a ++ "/" ++ b) ++ ".html")] ∧
      (s'.fs.findFile
        (rd ++ "/" ++ (a ++ "/" ++ b) ++ ".html")).isSome = true := by
  have hne : ¬(Fr.content = Fm.content) := fun h => hlines (by rw [h])
  obtain ⟨s₁, hcmp, hfs₁, hck₁, hev₁⟩ := filecmp_cmp_diff hr hm hsig hne
  have hslash : ("/" : String).data = ['/'] := by decide
  have hseg : pySplit (dotsToSlashes ("netket." ++ a ++ "." ++ b)) '/' =
      ["netket", a, b] := classSegments a b hans hand hbns hbnd
  have hdrop : (["netket", a, b].drop 1) = [a, b] := rfl
  have hpj : pyJoin "/" [a, b] = a ++ "/" ++ b := rfl
  have hof : (rd ++ "/" ++ (a ++ "/" ++ b)).data =
      rd.data ++ '/' :: a.data ++ '/' :: b.data := by
    simp [String.data_append, hslash]
  have hout_dir : dirname (rd ++ "/" ++ (a ++ "/" ++ b)) = rd ++ "/" ++ a :=
    dirname_shape rd a b.data hans hane (noSlash_forall hbns) hof
  have htail2 : ∀ c ∈ b.data ++ (".html" : String).data, ¬(c = '/') := by
    intro c hc
    rcases List.mem_append.mp hc with h | h
    · exact noSlash_forall hbns c h
    · have hh : (".html" : String).data = ['.', 'h', 't', 'm', 'l'] := by
        decide
      rw [hh] at h
      simp only [List.mem_cons, List.not_mem_nil, or_false] at h
      rcases h with rfl | rfl | rfl | rfl | rfl <;> decide
  have htgt : (rd ++ "/" ++ (a ++ "/" ++ b) ++ ".html").data =
      rd.data ++ '/' :: a.data ++ '/' ::
        (b.data ++ (".html" : String).data) := by
    simp [String.data_append, hslash]
  have htgt_dir : dirname (rd ++ "/" ++ (a ++ "/" ++ b) ++ ".html") =
      rd ++ "/" ++ a :=
    dirname_shape rd a (b.data ++ (".html" : String).data) hans hane
      htail2 htgt
  have htgt_ne_rd : ¬(rd ++ "/" ++ (a ++ "/" ++ b) ++ ".html" = rd) := by
    intro h
    have hmem : '/' ∈ rd.data := by
      rw [← h, htgt]
      simp
    exact noSlash_forall hrdn '/' hmem rfl
  have htgt_ne_od : ¬(rd ++ "/" ++ (a ++ "/" ++ b) ++ ".html" =
      rd ++ "/" ++ a) := by
    intro h
    have hlen := congrArg (fun l => l.length) (congrArg String.data h)
    have hrhs : (rd ++ "/" ++ a).data = rd.data ++ '/' :: a.data := by
      simp [String.data_append, hslash]
    rw [htgt, hrhs] at hlen
    simp only [List.length_append, List.length_cons] at hlen
    have hbh : ((".html" : String).data).length = 5 := by decide
    omega
  unfold make_report
  rw [OS.bind_ok hcmp, if_neg Bool.false_ne_true]
  have hrdf₁ : s₁.fs.findFile rd = none := by
    rw [findFile_congr (congrArg FS.files hfs₁)]
    exact hrdf
  obtain ⟨s₂, hid, hfiles₂, hck₂, hev₂, hdisj₂, hrdsome₂, hpres₂⟩ :=
    init_dir_spec rd s₁ hrdf₁ (Or.inl (dirname_of_noSlash hrdn))
  rw [OS.bind_ok hid]
  have hr₂ : s₂.fs.findFile rf = some Fr := by
    rw [findFile_congr hfiles₂, findFile_congr (congrArg FS.files hfs₁)]
    exact hr
  rw [OS.bind_ok (osOpenRead_ok hr₂)]
  have hm₃ : ((s₂.addEvent (.readE rf)).fs.findFile mf) = some Fm := by
    show s₂.fs.findFile mf = some Fm
    rw [findFile_congr hfiles₂, findFile_congr (congrArg FS.files hfs₁)]
    exact hm
  rw [OS.bind_ok (osOpenRead_ok hm₃)]
  simp only [hseg, hdrop, hpj, hout_dir]
  rw [OS.bind_ok (osPrint_eq ("Mismatch found in: " ++
    ("netket." ++ a ++ "." ++ b))
    (((s₂.addEvent (.readE rf)).addEvent (.readE mf))))]
  have hodf₅ : ((((s₂.addEvent (.readE rf)).addEvent
      (.readE mf)).addEvent (.printE ("Mismatch found in: " ++
        ("netket." ++ a ++ "." ++ b)))).fs.findFile (rd ++ "/" ++ a)) =
      none := by
    show s₂.fs.findFile (rd ++ "/" ++ a) = none
    rw [findFile_congr hfiles₂, findFile_congr (congrArg FS.files hfs₁)]
    exact hodf
  obtain ⟨s₆, hid₂, hfiles₆, hck₆, hev₆, hdisj₆, hodsome₆, hpres₆⟩ :=
    init_dir_spec (rd ++ "/" ++ a) _ hodf₅
      (Or.inr (by
        rw [dirname_slash_append hrdn hrdne hans]
        show (s₂.fs.findDir rd).isSome = true
        exact hrdsome₂))
  rw [OS.bind_ok hid₂]
  have htd₆ : s₆.fs.findDir
      (rd ++ "/" ++ (a ++ "/" ++ b) ++ ".html") = none := by
    rw [hpres₆ _ htgt_ne_od]
    show s₂.fs.findDir (rd ++ "/" ++ (a ++ "/" ++ b) ++ ".html") = none
    rw [hpres₂ _ htgt_ne_rd]
    rw [show s₁.fs.findDir (rd ++ "/" ++ (a ++ "/" ++ b) ++ ".html") =
      s.fs.findDir (rd ++ "/" ++ (a ++ "/" ++ b) ++ ".html") from by
        unfold FS.findDir
        rw [congrArg FS.dirs hfs₁]]
    exact htd
  have hpar₆ : dirname (rd ++ "/" ++ (a ++ "/" ++ b) ++ ".html") = "" ∨
      (s₆.fs.findDir
        (dirname (rd ++ "/" ++ (a ++ "/" ++ b) ++ ".html"))).isSome := by
    right
    rw [htgt_dir]
    exact hodsome₆
  rw [OS.bind_ok (osOpenWrite_ok htd₆ hpar₆)]
  have hwf₁ : s₁.events.filter Event.isWriteE =
      s.events.filter Event.isWriteE :=
    writes_filter_of_NewEvents hev₁ (fun e pe => pe.1)
  have hwf₂ : s₂.events.filter Event.isWriteE =
      s₁.events.filter Event.isWriteE :=
    writes_filter_of_NewEvents hev₂ (fun e pe => by rw [pe]; rfl)
  have hwf₆ : s₆.events.filter Event.isWriteE =
      s.events.filter Event.isWriteE := by
    have h₅ := writes_filter_of_NewEvents hev₆ (fun e pe => by rw [pe]; rfl)
    rw [h₅,
      writes_filter_addEvent2 ((s₂.addEvent (.readE rf)).addEvent
        (.readE mf)) (.printE ("Mismatch found in: " ++
          ("netket." ++ a ++ "." ++ b))) rfl,
      writes_filter_addEvent2 (s₂.addEvent (.readE rf)) (.readE mf) rfl,
      writes_filter_addEvent2 s₂ (.readE rf) rfl, hwf₂, hwf₁]
  have hwf₇ : ((s₆.events ++
      [Event.writeE (rd ++ "/" ++ (a ++ "/" ++ b) ++ ".html")]).filter
        Event.isWriteE) =
      s.events.filter Event.isWriteE ++
        [.writeE (rd ++ "/" ++ (a ++ "/" ++ b) ++ ".html")] := by
    rw [List.filter_append, hwf₆]
    rfl
  cases v with
  | true =>
    rw [if_pos rfl]
    rw [OS.bind_ok (osPrint_eq _ _), OS.pure_eq]
    refine ⟨_, rfl, ?_, ?_, ?_⟩
    · unfold reportPath
      rw [hseg, hdrop, hpj]
    · rw [writes_filter_addEvent2 _ (.printE ("Report written to: " ++
        (rd ++ "/" ++ (a ++ "/" ++ b)) ++ ".html")) rfl]
      exact hwf₇
    · simp [Sys.addEvent, FS.findFile, List.lookup]
  | false =>
    rw [if_neg Bool.false_ne_true]
    rw [OS.bind_ok OS.pure_eq, OS.pure_eq]
    refine ⟨_, rfl, ?_, hwf₇, ?_⟩
    · unfold reportPath
      rw [hseg, hdrop, hpj]
    · simp [FS.findFile, List.lookup]

/-- Two files that differ in one line but share a stat signature
(equal byte size `8`, equal mtime `3`). -/
def lineDiffSys : Sys :=
  { fs := { files := [("Graph/Doc.md", ⟨"line1\nX\n", 3⟩),
                      ("temp/Graph/Doc.md", ⟨"line1\nY\n", 3⟩)],
            dirs := [] },
    clock := 0, events := [] }

/-- C4 (counterexample to the claim as stated): a pair of files differing
in one line for which the comparator nevertheless answers "consistent" and
writes no report file at all — the shallow `filecmp.cmp` signature match
short-circuits the line-level comparison. -/
theorem make_report_shallow_miss :
    pySplit "line1\nX\n" '\n' ≠ pySplit "line1\nY\n" '\n' ∧
    (make_report "Graph/Doc.md" "temp/Graph/Doc.md" "netket.graph.Doc"
      "report" true lineDiffSys).1 = .ok true ∧
    ((make_report "Graph/Doc.md" "temp/Graph/Doc.md" "netket.graph.Doc"
      "report" true lineDiffSys).2.events.filter Event.isWriteE) = [] := by
  refine ⟨by decide, rfl, by decide⟩

/-- A mismatching pair with different sizes and mtimes. -/
def mismatchSys : Sys :=
  { fs := { files := [("Graph/Doc.md", ⟨"A\n", 0⟩),
                      ("temp/Graph/Doc.md", ⟨"B!\n", 5⟩)],
            dirs := [] },
    clock := 7, events := [] }

theorem make_report_mismatch_report_witness :
    ∃ s', make_report "Graph/Doc.md" "temp/Graph/Doc.md"
        ("netket." ++ "graph" ++ "." ++ "Doc") "report" true mismatchSys =
        (.ok false, s') ∧
      reportPath "report" ("netket." ++ "graph" ++ "." ++ "Doc") =
        "report" ++ "/" ++ ("graph" ++ "/" ++ "Doc") ++ ".html" ∧
      s'.events.filter Event.isWriteE =
        mismatchSys.events.filter Event.isWriteE ++
          [.writeE ("report" ++ "/" ++ ("graph" ++ "/" ++ "Doc") ++
            ".html")] ∧
      (s'.fs.findFile
        ("report" ++ "/" ++ ("graph" ++ "/" ++ "Doc") ++
          ".html")).isSome = true :=
  make_report_mismatch_report "Graph/Doc.md" "temp/Graph/Doc.md"
    "graph" "Doc" "report" true mismatchSys ⟨"A\n", 0⟩ ⟨"B!\n", 5⟩
    rfl rfl (by decide) (by decide) (by decide) (by decide) (by decide)
    (by decide) (by decide) (by decide) (by decide) rfl rfl rfl

/-! ## Claim C10: all writes land under the scratch or report roots -/

/-- The computation step from `s` to `out` only appends events, and every
file-write among them hits a path satisfying `P`. -/
def TraceOK {α : Type} (s : Sys) (out : Except OSErr α × Sys)
    (P : String → Prop) : Prop :=
  ∃ new, out.2.events = s.events ++ new ∧
    ∀ p, Event.writeE p ∈ new → P p

theorem TraceOK.bind {α β : Type} {m : OS α} {f : α → OS β} {s : Sys}
    {P : String → Prop} (hm : TraceOK s (m s) P)
    (hf : ∀ a s₁, m s = (.ok a, s₁) → TraceOK s₁ (f a s₁) P) :
    TraceOK s ((m >>= f) s) P := by
  rcases hms : m s with ⟨r, s₁⟩
  rw [hms] at hm
  cases r with
  | ok a =>
    rw [OS.bind_ok hms]
    obtain ⟨n₁, he₁, hp₁⟩ := hm
    obtain ⟨n₂, he₂, hp₂⟩ := hf a s₁ hms
    refine ⟨n₁ ++ n₂, ?_, ?_⟩
    · rw [he₂, he₁, List.append_assoc]
    · intro p hp
      rcases List.mem_append.mp hp with h | h
      · exact hp₁ p h
      · exact hp₂ p h
  | error e =>
    rw [OS.bind_error hms]
    exact hm

theorem TraceOK_pure {α : Type} (a : α) (s : Sys) (P : String → Prop) :
    TraceOK s (OS.pure a s) P :=
  ⟨[], by simp [OS.pure], by simp⟩

theorem osStat_trace (p : String) (s : Sys) (P : String → Prop) :
    TraceOK s (osStat p s) P := by
  unfold osStat
  cases hfd : s.fs.findFile p <;>
    exact ⟨[.statE p], rfl, by intro q hq; simp at hq⟩

theorem osOpenRead_trace (p : String) (s : Sys) (P : String → Prop) :
    TraceOK s (osOpenRead p s) P := by
  unfold osOpenRead
  cases hfd : s.fs.findFile p <;>
    exact ⟨[.readE p], rfl, by intro q hq; simp at hq⟩

theorem osListdir_trace (p : String) (s : Sys) (P : String → Prop) :
    TraceOK s (osListdir p s) P := by
  unfold osListdir
  cases hfd : s.fs.findDir p <;>
    exact ⟨[.listdirE p], rfl, by intro q hq; simp at hq⟩

theorem osIsdir_trace (p : String) (s : Sys) (P : String → Prop) :
    TraceOK s (osIsdir p s) P :=
  ⟨[], by simp [osIsdir], by simp⟩

theorem osMkdir_trace (p : String) (s : Sys) (P : String → Prop) :
    TraceOK s (osMkdir p s) P := by
  unfold osMkdir
  split
  · exact ⟨[.mkdirE p], rfl, by intro q hq; simp at hq⟩
  · split
    · exact ⟨[.mkdirE p], rfl, by intro q hq; simp at hq⟩
    · exact ⟨[.mkdirE p], rfl, by intro q hq; simp at hq⟩

theorem osRmtree_trace (p : String) (s : Sys) (P : String → Prop) :
    TraceOK s (osRmtree p s) P := by
  unfold osRmtree
  cases hfd : s.fs.findDir p <;>
    exact ⟨[.rmtreeE p], rfl, by intro q hq; simp at hq⟩

theorem osPrint_trace (msg : String) (s : Sys) (P : String → Prop) :
    TraceOK s (osPrint msg s) P :=
  ⟨[.printE msg], rfl, by intro q hq; simp at hq⟩

theorem osOpenWrite_trace (p c : String) (s : Sys) (P : String → Prop)
    (hP : P p) : TraceOK s (osOpenWrite p c s) P := by
  unfold osOpenWrite
  split
  · refine ⟨[.writeE p], rfl, ?_⟩
    intro q hq
    simp at hq
    rw [hq]
    exact hP
  · split
    · refine ⟨[.writeE p], rfl, ?_⟩
      intro q hq
      simp at hq
      rw [hq]
      exact hP
    · refine ⟨[.writeE p], rfl, ?_⟩
      intro q hq
      simp at hq
      rw [hq]
      exact hP

theorem init_dir_trace (d : String) (s : Sys) (P : String → Prop) :
    TraceOK s (init_dir d s) P := by
  unfold init_dir
  refine TraceOK.bind (osIsdir_trace d s P) ?_
  intro a s₁ _
  cases a
  · exact osMkdir_trace d s₁ P
  · exact TraceOK_pure () s₁ P

theorem build_trace (fmtF : String → String) (cn out : String) (v : Bool)
    (s : Sys) (P : String → Prop) (hP : P out) :
    TraceOK s (build fmtF cn out v s) P := by
  unfold build
  cases v
  · rw [if_neg Bool.false_ne_true]
    refine TraceOK.bind (TraceOK_pure () s P) ?_
    intro a s₁ _
    exact osOpenWrite_trace out (fmtF cn) s₁ P hP
  · rw [if_pos rfl]
    refine TraceOK.bind (osPrint_trace _ s P) ?_
    intro a s₁ _
    exact osOpenWrite_trace out (fmtF cn) s₁ P hP

theorem filecmp_cmp_trace (f1 f2 : String) (s : Sys) (P : String → Prop) :
    TraceOK s (filecmp_cmp f1 f2 s) P := by
  unfold filecmp_cmp
  refine TraceOK.bind (osStat_trace f1 s P) ?_
  intro a s₁ _
  refine TraceOK.bind (osStat_trace f2 s₁ P) ?_
  intro a₂ s₂ _
  split
  · exact TraceOK_pure _ s₂ P
  · split
    · exact TraceOK_pure _ s₂ P
    · refine TraceOK.bind (osOpenRead_trace f1 s₂ P) ?_
      intro c₁ s₃ _
      refine TraceOK.bind (osOpenRead_trace f2 s₃ P) ?_
      intro c₂ s₄ _
      exact TraceOK_pure _ s₄ P

theorem make_report_trace (rf mf cn rd : String) (v : Bool) (s : Sys)
    (P : String → Prop) (hP : ∀ x : String, P (rd ++ "/" ++ x ++ ".html")) :
    TraceOK s (make_report rf mf cn rd v s) P := by
  unfold make_report
  refine TraceOK.bind (filecmp_cmp_trace rf mf s P) ?_
  intro c s₁ _
  cases c
  · refine TraceOK.bind (init_dir_trace rd s₁ P) ?_
    intro u s₂ _
    refine TraceOK.bind (osOpenRead_trace rf s₂ P) ?_
    intro rc s₃ _
    refine TraceOK.bind (osOpenRead_trace mf s₃ P) ?_
    intro mc s₄ _
    refine TraceOK.bind (osPrint_trace _ s₄ P) ?_
    intro u₂ s₅ _
    refine TraceOK.bind (init_dir_trace _ s₅ P) ?_
    intro u₃ s₆ _
    refine TraceOK.bind
      (osOpenWrite_trace _ _ s₆ P
        (hP (pyJoin "/" ((pySplit (dotsToSlashes cn) '/').drop 1)))) ?_
    intro u₄ s₇ _
    cases v
    · rw [if_neg Bool.false_ne_true]
      refine TraceOK.bind (TraceOK_pure () s₇ P) ?_
      intro u₅ s₈ _
      exact TraceOK_pure _ s₈ P
    · rw [if_pos rfl]
      refine TraceOK.bind (osPrint_trace _ s₇ P) ?_
      intro u₅ s₈ _
      exact TraceOK_pure _ s₈ P
  · exact TraceOK_pure _ s₁ P

theorem init_docs_loop_trace (bd : String) (dd : List String) :
    ∀ (s : Sys) (P : String → Prop),
    TraceOK s (init_docs_loop bd dd s) P := by
  induction dd with
  | nil =>
    intro s P
    exact TraceOK_pure _ s P
  | cons d rest ih =>
    intro s P
    unfold init_docs_loop
    refine TraceOK.bind (init_dir_trace _ s P) ?_
    intro u s₁ _
    exact ih s₁ P

theorem init_docs_trace (bd : String) (dd : List String) (s : Sys)
    (P : String → Prop) : TraceOK s (init_docs bd dd s) P := by
  unfold init_docs
  refine TraceOK.bind (init_dir_trace bd s P) ?_
  intro u s₁ _
  exact init_docs_loop_trace bd dd s₁ P

theorem get_generated_docs_trace (dd : List String) :
    ∀ (bd : String) (s : Sys) (P : String → Prop),
    TraceOK s (get_generated_docs dd bd s) P := by
  induction dd with
  | nil =>
    intro bd s P
    exact TraceOK_pure _ s P
  | cons d rest ih =>
    intro bd s P
    unfold get_generated_docs
    refine TraceOK.bind (osListdir_trace d s P) ?_
    intro tmp s₁ _
    refine TraceOK.bind (ih bd s₁ P) ?_
    intro triple s₂ _
    obtain ⟨r2, m2, c2⟩ := triple
    exact TraceOK_pure _ s₂ P

theorem strPrefix_append2 (a t u : String) :
    strPrefix a (a ++ t ++ u) = true := by
  rw [String.append_assoc]
  exact strPrefix_append_right a (t ++ u)

theorem doc_loop_trace (fmtF : String → String) (bd rd : String) :
    ∀ (l : List (String × String × String)) (err : Bool) (s : Sys),
    (∀ t ∈ l, strPrefix (bd ++ "/") t.2.1 = true) →
    TraceOK s (doc_loop fmtF rd l err s)
      (fun p => strPrefix (bd ++ "/") p = true ∨
        strPrefix (rd ++ "/") p = true) := by
  intro l
  induction l with
  | nil =>
    intro err s _
    exact TraceOK_pure _ s _
  | cons t rest ih =>
    obtain ⟨rf, mf, cn⟩ := t
    intro err s htrip
    unfold doc_loop
    refine TraceOK.bind
      (build_trace fmtF cn mf true s _
        (Or.inl (htrip (rf, mf, cn) (by simp)))) ?_
    intro u s₁ _
    refine TraceOK.bind
      (make_report_trace rf mf cn rd true s₁ _
        (fun x => Or.inr (strPrefix_append2 (rd ++ "/") x ".html"))) ?_
    intro c s₂ _
    exact ih (if c then err else true) s₂
      (fun t' ht' => htrip t' (by simp [ht']))

/-- Every write the whole run performs targets a path under the scratch
root `bd/` or the report root `rd/`. -/
theorem run_trace (bd : String) (dd : List String) (rd : String)
    (fmtF : String → String) (s : Sys) :
    TraceOK s (run bd dd rd fmtF s)
      (fun p => strPrefix (bd ++ "/") p = true ∨
        strPrefix (rd ++ "/") p = true) := by
  unfold run
  refine TraceOK.bind (init_docs_trace bd dd s _) ?_
  intro u s₁ _
  refine TraceOK.bind (get_generated_docs_trace dd bd s₁ _) ?_
  intro docs s₂ hg
  refine TraceOK.bind (doc_loop_trace fmtF bd rd _ false s₂ ?_) ?_
  · intro t ht
    have hm1 := List.of_mem_zip ht
    have hm2 := List.of_mem_zip hm1.2
    have hmods : t.2.1 ∈ docs.2.1 := hm2.1
    obtain ⟨_, hmeq, _, _, _⟩ :=
      get_generated_docs_lockstep dd bd s₁ docs.1 docs.2.1 docs.2.2 s₂ hg
    rw [hmeq] at hmods
    obtain ⟨pair, _, hp⟩ := List.mem_map.mp hmods
    rw [← hp, String.append_assoc, String.append_assoc]
    exact strPrefix_append_right _ _
  · intro errv s₃ _
    refine TraceOK.bind (osRmtree_trace bd s₃ _) ?_
    intro u₂ s₄ _
    exact TraceOK_pure _ s₄ _

/-- C10: during any run — normal or aborted — every file write targets a
path strictly under the scratch root or strictly under the report root;
provided the topic directories are not nested with either root, no write
ever targets a reference path `<topic dir>/<entry>`, so reference
documents are only ever read. -/
theorem run_write_targets (bd rd : String) (dd : List String)
    (fmtF : String → String) (s : Sys) (r : Except OSErr Bool) (s' : Sys)
    (h : run bd dd rd fmtF s = (r, s'))
    (hsep : ∀ d ∈ dd,
      ((bd ++ "/").data.isPrefixOf (d ++ "/").data) = false ∧
      ((d ++ "/").data.isPrefixOf (bd ++ "/").data) = false ∧
      ((rd ++ "/").data.isPrefixOf (d ++ "/").data) = false ∧
      ((d ++ "/").data.isPrefixOf (rd ++ "/").data) = false) :
    ∃ new, s'.events = s.events ++ new ∧
      ∀ p, Event.writeE p ∈ new →
        (strPrefix (bd ++ "/") p = true ∨
          strPrefix (rd ++ "/") p = true) ∧
        ∀ d ∈ dd, ∀ f : String, ¬(p = d ++ "/" ++ f) := by
  have htr := run_trace bd dd rd fmtF s
  rw [h] at htr
  obtain ⟨new, he, hp⟩ := htr
  refine ⟨new, he, ?_⟩
  intro p hmem
  refine ⟨hp p hmem, ?_⟩
  intro d hd f hpf
  have hdp : (d ++ "/").data <+: p.data := by
    rw [hpf,
      show (d ++ "/" ++ f).data = (d ++ "/").data ++ f.data from
        String.data_append _ _]
    exact List.prefix_append _ _
  have hroot : (bd ++ "/").data <+: p.data ∨ (rd ++ "/").data <+: p.data := by
    rcases hp p hmem with h1 | h1
    · exact Or.inl (List.isPrefixOf_iff_prefix.mp h1)
    · exact Or.inr (List.isPrefixOf_iff_prefix.mp h1)
  rcases hroot with h1 | h1
  · rcases List.prefix_or_prefix_of_prefix h1 hdp with h2 | h2
    · rw [← List.isPrefixOf_iff_prefix] at h2
      rw [(hsep d hd).1] at h2
      simp at h2
    · rw [← List.isPrefixOf_iff_prefix] at h2
      rw [(hsep d hd).2.1] at h2
      simp at h2
  · rcases List.prefix_or_prefix_of_prefix h1 hdp with h2 | h2
    · rw [← List.isPrefixOf_iff_prefix] at h2
      rw [(hsep d hd).2.2.1] at h2
      simp at h2
    · rw [← List.isPrefixOf_iff_prefix] at h2
      rw [(hsep d hd).2.2.2] at h2
      simp at h2

theorem run_write_targets_witness :
    ∃ new, (run build_dir ["Graph"] report_dir (fun _ => "# Bar\n")
        sampleSys).2.events = sampleSys.events ++ new ∧
      ∀ p, Event.writeE p ∈ new →
        (strPrefix (build_dir ++ "/") p = true ∨
          strPrefix (report_dir ++ "/") p = true) ∧
        ∀ d ∈ ["Graph"], ∀ f : String, ¬(p = d ++ "/" ++ f) :=
  run_write_targets build_dir report_dir ["Graph"] (fun _ => "# Bar\n")
    sampleSys _ _ rfl (by decide)
